import Mathlib

set_option maxHeartbeats 1000000

/-! Verification development for the block-program compiler core and the maze
    game of this repository.  The definitions below are shallow embeddings of
    `src/app/src/core/compiler/ast.ts`, `src/app/src/core/compiler/validate.ts`,
    `src/app/src/core/runtime/runtime.ts` and `src/app/src/apps/maze/mazeApp.ts`.
    Machine numbers are embedded as `Int`/`Rat`, in-place mutation as explicit
    state passing, thrown errors as `Except`, and the asynchronous hook calls of
    the runtime as an explicit event list. -/

/-- The `direction` payload of a turn op (`"left" | "right"` in `ast.ts`). -/
inductive TurnDir where
  | left
  | right
  deriving DecidableEq

/-- Shallow embedding of the `Op` union from `ast.ts`.  `steps` and `ms` are
    embedded as integers; `times` is a rational because the editor's numeric
    field may carry a fractional value and the runtime applies
    `Math.floor` to it. -/
inductive Op where
  | start (blockId : String)
  | move (steps : Int) (blockId : String)
  | turn (direction : TurnDir) (blockId : String)
  | rep (times : Rat) (body : List Op) (blockId : String)
  | wait (ms : Int) (blockId : String)

/-- The `blockId` field common to every `Op` variant in `ast.ts`. -/
def Op.blockId : Op → String
  | .start b => b
  | .move _ b => b
  | .turn _ b => b
  | .rep _ _ b => b
  | .wait _ b => b

/-- `op.kind === "start"` test used by `validateProgram` (`validate.ts` line 21). -/
def Op.isStart : Op → Bool
  | .start _ => true
  | _ => false

/-- The `Program` shape from `ast.ts`: an ordered list of top-level ops. -/
structure Program where
  ops : List Op

/-- `MAX_OPS` from `validate.ts` (line 3). -/
def MAX_OPS : Nat := 200

/-- `countOps` from `validate.ts` (lines 5–14): every op counts 1 and a repeat
    op additionally counts its entire body, recursively. -/
def countOps : List Op → Nat
  | [] => 0
  | op :: rest =>
    (1 + match op with
      | .rep _ body _ => countOps body
      | _ => 0) + countOps rest

deriving instance DecidableEq for Except

/-- `validateProgram` from `validate.ts` (lines 17–28).  The thrown errors are
    embedded as `Except.error` carrying the exact user-facing message (the
    too-long message is the template literal with `MAX_OPS = 200` filled in). -/
def validateProgram (program : Program) : Except String Unit :=
  match program.ops with
  | [] => .error "El programa está vacío."
  | op0 :: _ =>
    if !op0.isStart then .error "El programa debe empezar con start."
    else if countOps program.ops > MAX_OPS then
      .error "Programa demasiado largo (máximo 200 ops)."
    else .ok ()

example : countOps [Op.start "a", Op.rep 2 [Op.move 1 "b"] "c"] = 3 := by
  simp [countOps]

example : validateProgram ⟨[Op.start "a"]⟩ = .ok () := by
  simp [validateProgram, countOps, MAX_OPS, Op.isStart]

/-! ## Runtime (`runtime.ts`)

The runtime walks the program, calling the adapter's `applyOp` per op and
firing the caller's hooks.  The embedding makes the hook calls an explicit
`Event` list, in emission order.  A JS adapter mutates its state in place and
may throw; a throw therefore leaves the mutations visible to the caller, so
the embedded `applyOp` returns `Except (String × σ) σ`: an error carries the
thrown message together with the state as mutated at throw time.

`stop()` can only run while the walk is suspended at an `await` (the applyOp
await of line 72 or the `sleep` await of line 74).  The embedding numbers the
await points consumed so far with a counter `k` and takes an oracle
`κ : Nat → Bool` saying whether a `stop()` call is serviced at await point
`k`.  Servicing a stop performs exactly lines 97–105: set the stopped flag,
drain the pending-timer list (`clearTimers`, lines 36–42) and emit the
`"Detenido."` status. -/

/-- One hook notification of `RuntimeHooks` (`runtime.ts` lines 8–13). -/
inductive Event where
  | step (blockId : String)
  | status (text : String)
  | done
  | error (e : String)
  deriving DecidableEq

/-- The interpreter-owned mutable locals of `runProgram` (`runtime.ts` lines
    31–34): the threaded adapter state, the `stopped` flag, the pending-timer
    id list, plus the await-point counter `k` used by the stop oracle. -/
structure RunSt (σ : Type) where
  st : σ
  stopped : Bool
  k : Nat
  timers : List Nat
  deriving DecidableEq

/-- Result of a (partial) walk: normal return, or an error propagating out of
    `applyOp`, carrying the state as already mutated when the throw happened. -/
inductive RunRes (σ : Type) where
  | ok (a : RunSt σ)
  | err (e : String) (a : RunSt σ)
  deriving DecidableEq

/-- The state carried by a `RunRes`, whether normal or error. -/
def RunRes.st {σ : Type} : RunRes σ → RunSt σ
  | .ok a => a
  | .err _ a => a

/-- An await boundary: if a `stop()` call is serviced here (oracle fires and
    the run was not already stopped), execute `stop`'s body (`runtime.ts`
    lines 97–105): set `stopped`, clear every pending timer and emit
    `"Detenido."`.  Otherwise just move past the await point. -/
def serviceStop {σ : Type} (κ : Nat → Bool) (a : RunSt σ) : RunSt σ × List Event :=
  if κ a.k && !a.stopped then
    ({ a with stopped := true, timers := [], k := a.k + 1 }, [Event.status "Detenido."])
  else
    ({ a with k := a.k + 1 }, [])

/-- The `sleep` helper (`runtime.ts` lines 44–54) as awaited for a `wait` op:
    push a fresh timer id, then suspend.  Either a `stop()` is serviced during
    the delay — its `clearTimers` drains the list, resolves the promise and
    emits `"Detenido."` — or the timeout fires and removes its own id. -/
def sleepStep {σ : Type} (κ : Nat → Bool) (a : RunSt σ) : RunSt σ × List Event :=
  let id := a.k
  let pushed := a.timers ++ [id]
  if κ a.k && !a.stopped then
    ({ a with stopped := true, timers := [], k := a.k + 1 }, [Event.status "Detenido."])
  else
    ({ a with timers := pushed.erase id, k := a.k + 1 }, [])

/-- The body of the repeat loop (`runtime.ts` lines 63–69): run `f` (the walk
    of the repeat body) `n` times, checking the stopped flag before each
    iteration and short-circuiting on error. -/
def iterStop {σ : Type} (f : RunSt σ → RunRes σ × List Event) :
    Nat → RunSt σ → RunRes σ × List Event
  | 0, a => (.ok a, [])
  | n + 1, a =>
    if a.stopped then (.ok a, [])
    else
      match f a with
      | (.ok a1, ev1) => ((iterStop f n a1).1, ev1 ++ (iterStop f n a1).2)
      | (.err e a1, ev1) => (.err e a1, ev1)

/-- `runOps` (`runtime.ts` lines 56–77): walk an op list in order.  Before
    each op check the stopped flag and emit `onStep`; a repeat op floors and
    clamps its count and iterates its body; any other op is applied through
    the adapter (an await point), and a wait op additionally suspends on
    `sleep` (a second await point). -/
def runOps {σ : Type} (A : Op → σ → Except (String × σ) σ) (κ : Nat → Bool) :
    List Op → RunSt σ → RunRes σ × List Event
  | [], a => (.ok a, [])
  | op :: rest, a =>
    if a.stopped then (.ok a, [])
    else
      match op with
      | .rep times body _ =>
        match iterStop (fun b => runOps A κ body b) (max 0 times.floor).toNat a with
        | (.ok a1, ev1) =>
          ((runOps A κ rest a1).1, Event.step op.blockId :: (ev1 ++ (runOps A κ rest a1).2))
        | (.err e a1, ev1) => (.err e a1, Event.step op.blockId :: ev1)
      | _ =>
        match A op a.st with
        | .error (e, sBad) => (.err e { a with st := sBad }, [Event.step op.blockId])
        | .ok s1 =>
          let a1 := (serviceStop κ { a with st := s1 }).1
          let evS := (serviceStop κ { a with st := s1 }).2
          match op with
          | .wait _ _ =>
            let a2 := (sleepStep κ a1).1
            let evW := (sleepStep κ a1).2
            ((runOps A κ rest a2).1,
              Event.step op.blockId :: (evS ++ evW ++ (runOps A κ rest a2).2))
          | _ =>
            ((runOps A κ rest a1).1, Event.step op.blockId :: (evS ++ (runOps A κ rest a1).2))
  termination_by ops => sizeOf ops
  decreasing_by all_goals (simp <;> omega)

/-- The adapter contract `RuntimeAdapter` (`runtime.ts` lines 3–6), with the
    mutate-then-throw convention described above. -/
structure RuntimeAdapter (σ : Type) where
  applyOp : Op → σ → Except (String × σ) σ
  reset : σ → σ

/-- Everything observable when a run has reached its terminal state: the hook
    events in emission order, the final adapter state, the `stopped` flag, the
    pending timers and the `running` flag (always false once terminal,
    `runtime.ts` line 90). -/
structure RunOutcome (σ : Type) where
  events : List Event
  final : σ
  stopped : Bool
  timers : List Nat
  running : Bool
  deriving DecidableEq

/-- `runProgram` (`runtime.ts` lines 25–108) run to its terminal state: reset
    the state, emit `"Ejecutando..."`, walk the ops; on normal return emit
    `onDone` then `"Finalizado."` unless stopped; on an error emit
    `onError`; in every case `running` ends up false (the `finally`). -/
def runProgram {σ : Type} (A : RuntimeAdapter σ) (κ : Nat → Bool)
    (program : Program) (initialState : σ) : RunOutcome σ :=
  let a0 : RunSt σ := ⟨A.reset initialState, false, 0, []⟩
  let ev := (runOps A.applyOp κ program.ops a0).2
  match (runOps A.applyOp κ program.ops a0).1 with
  | .ok a =>
    if a.stopped then
      ⟨Event.status "Ejecutando..." :: ev, a.st, true, a.timers, false⟩
    else
      ⟨Event.status "Ejecutando..." :: (ev ++ [Event.done, Event.status "Finalizado."]),
        a.st, false, a.timers, false⟩
  | .err e a =>
    ⟨Event.status "Ejecutando..." :: (ev ++ [Event.error e]), a.st, a.stopped, a.timers, false⟩

/-- The externally visible controller state mutated by `stop()`
    (`runtime.ts` lines 96–107). -/
structure CtlSt where
  running : Bool
  stopped : Bool
  timers : List Nat
  deriving DecidableEq

/-- The `stop` closure of the returned controller (`runtime.ts` lines 97–105):
    a no-op when not running, otherwise set flags, drain timers and emit
    `"Detenido."`. -/
def ctlStop (c : CtlSt) : CtlSt × List Event :=
  if !c.running then (c, [])
  else ({ running := false, stopped := true, timers := [] }, [Event.status "Detenido."])

/-- The oracle of a run during which `stop()` is never called. -/
def noStop : Nat → Bool := fun _ => false

/-! ## Maze game (`mazeApp.ts`)

The level data module (`levels.ts`) is not part of the sources; only the shape
its values must have is visible from its uses in `mazeApp.ts` and from the
spec.  The level list is therefore threaded as an explicit parameter
everywhere `mazeApp.ts` reads the module-level `levels` constant. -/

/-- The `Direction` union (`"N" | "E" | "S" | "W"`). -/
inductive Direction where
  | N
  | E
  | S
  | W
  deriving DecidableEq

/-- An `{x, y}` cell, as used for `goal` and `walls` entries. -/
structure Point where
  x : Int
  y : Int
  deriving DecidableEq

/-- The `player` record of `MazeState`: position plus facing direction. -/
structure Player where
  x : Int
  y : Int
  dir : Direction
  deriving DecidableEq

/-- Modelled from the spec: the `MazeLevel` shape of the missing `levels.ts`
    module, restricted to the fields `mazeApp.ts` reads — numeric id, grid
    width/height, start cell with direction, goal cell and wall list. -/
structure MazeLevel where
  id : Int
  gridW : Int
  gridH : Int
  start : Player
  goal : Point
  walls : List Point
  deriving DecidableEq

/-- The `MazeStatus` union (`mazeApp.ts` line 10). -/
inductive MazeStatus where
  | idle
  | running
  | win
  | error
  deriving DecidableEq

/-- The `MazeState` shape (`mazeApp.ts` lines 12–17). -/
structure MazeState where
  levelId : Int
  player : Player
  status : MazeStatus
  message : Option String
  deriving DecidableEq

/-- `DIR_ORDER` (`mazeApp.ts` line 40). -/
def DIR_ORDER : List Direction := [.N, .E, .S, .W]

/-- `DIR_DELTAS` (`mazeApp.ts` lines 41–46): screen coordinates, `y` grows
    downward, so north is `y - 1`. -/
def DIR_DELTAS : Direction → Point
  | .N => ⟨0, -1⟩
  | .E => ⟨1, 0⟩
  | .S => ⟨0, 1⟩
  | .W => ⟨-1, 0⟩

/-- `turnLeft` (`mazeApp.ts` lines 63–66). -/
def turnLeft (dir : Direction) : Direction :=
  (DIR_ORDER.get? ((DIR_ORDER.indexOf dir + 3) % DIR_ORDER.length)).getD .N

/-- `turnRight` (`mazeApp.ts` lines 68–71). -/
def turnRight (dir : Direction) : Direction :=
  (DIR_ORDER.get? ((DIR_ORDER.indexOf dir + 1) % DIR_ORDER.length)).getD .N

/-- `isBlocked` (`mazeApp.ts` lines 73–74). -/
def isBlocked (level : MazeLevel) (x y : Int) : Bool :=
  level.walls.any (fun wall => wall.x == x && wall.y == y)

/-- `inBounds` (`mazeApp.ts` lines 76–77). -/
def inBounds (level : MazeLevel) (x y : Int) : Bool :=
  decide (0 ≤ x ∧ 0 ≤ y ∧ x < level.gridW ∧ y < level.gridH)

/-- A fallback level value standing for the JS `undefined` that
    `levels[0]` would produce on an empty level list (never reached for the
    level lists the theorems use). -/
def fallbackLevel : MazeLevel := ⟨0, 0, 0, ⟨0, 0, .N⟩, ⟨0, 0⟩, []⟩

/-- `getLevel` (`mazeApp.ts` lines 50–51): first level with the given id,
    defaulting to the first level of the list. -/
def getLevel (levels : List MazeLevel) (levelId : Int) : MazeLevel :=
  (levels.find? (fun level => level.id == levelId)).getD (levels.headD fallbackLevel)

/-- `makeInitialState` (`mazeApp.ts` lines 53–61). -/
def makeInitialState (levels : List MazeLevel) (levelId : Int) : MazeState :=
  let level := getLevel levels levelId
  ⟨level.id, level.start, .idle, none⟩

/-- The step loop of the `move` case of `adapter.applyOp` (`mazeApp.ts` lines
    344–361): one cell per iteration in the direction delta (times the sign of
    `steps`); walking out of bounds or into a wall sets status `error` and
    throws `"CHOQUE"`; landing on the goal sets status `win` and throws
    `"WIN"`.  The thrown message is paired with the state as mutated. -/
def moveLoop (level : MazeLevel) (delta : Point) (sign : Int) :
    Nat → MazeState → Except (String × MazeState) MazeState
  | 0, state => .ok state
  | n + 1, state =>
    let nextX := state.player.x + delta.x * sign
    let nextY := state.player.y + delta.y * sign
    if !inBounds level nextX nextY || isBlocked level nextX nextY then
      .error ("CHOQUE", { state with status := .error, message := some "¡Choque!" })
    else
      let state1 := { state with player := { state.player with x := nextX, y := nextY } }
      if state1.player.x == level.goal.x && state1.player.y == level.goal.y then
        .error ("WIN", { state1 with status := .win, message := some "¡Llegaste!" })
      else
        moveLoop level delta sign n state1

/-- `adapter.applyOp` (`mazeApp.ts` lines 328–371): inert once the status is
    terminal (`win`/`error`); `turn` rotates the facing; `move` walks
    `Math.abs(steps)` cells in the facing direction times the sign of `steps`;
    `wait`, `start` and anything else return the state unchanged.  Rendering
    side effects (`drawMaze`) are outside the state and are dropped. -/
def mazeApplyOp (levels : List MazeLevel) (op : Op) (state : MazeState) :
    Except (String × MazeState) MazeState :=
  let level := getLevel levels state.levelId
  if state.status = .win ∨ state.status = .error then .ok state
  else
    match op with
    | .turn d _ =>
      let dir1 := if d = .left then turnLeft state.player.dir else turnRight state.player.dir
      .ok { state with player := { state.player with dir := dir1 } }
    | .move steps _ =>
      let delta := DIR_DELTAS state.player.dir
      let sign : Int := if 0 ≤ steps then 1 else -1
      moveLoop level delta sign steps.natAbs state
    | _ => .ok state

/-- `adapter.reset` (`mazeApp.ts` lines 372–380): overwrite every field with
    the freshly built initial state of the same level. -/
def mazeReset (levels : List MazeLevel) (state : MazeState) : MazeState :=
  makeInitialState levels state.levelId

/-- The maze `RuntimeAdapter` (`mazeApp.ts` lines 327–381). -/
def mazeAdapter (levels : List MazeLevel) : RuntimeAdapter MazeState :=
  ⟨mazeApplyOp levels, mazeReset levels⟩

/-- The record shape produced by `mazeApp.serializeState` (`mazeApp.ts` lines
    441–446): the four `MazeState` fields, verbatim. -/
structure SerializedMaze where
  levelId : Int
  player : Player
  status : MazeStatus
  message : Option String
  deriving DecidableEq

/-- `mazeApp.serializeState` (`mazeApp.ts` lines 441–446). -/
def serializeState (state : MazeState) : SerializedMaze :=
  ⟨state.levelId, state.player, state.status, state.message⟩

/-- `mazeApp.deserializeState` (`mazeApp.ts` lines 447–464) on an input of the
    serialized shape (the `typeof`-guards of the raw-unknown checks all pass
    on such a record, and `record.levelId ?? 1` is `record.levelId`): rebuild
    the initial state of the level, copy position and — when listed in
    `DIR_ORDER` — direction, force status to `idle`, copy the message. -/
def deserializeState (levels : List MazeLevel) (record : SerializedMaze) : MazeState :=
  let level := getLevel levels record.levelId
  let state := makeInitialState levels level.id
  let player1 := { state.player with x := record.player.x, y := record.player.y }
  let player2 :=
    if DIR_ORDER.contains record.player.dir then { player1 with dir := record.player.dir }
    else player1
  { state with player := player2, status := .idle, message := record.message }

example : turnRight .N = .E ∧ turnLeft .N = .W ∧ turnRight .W = .N := by decide

/-! ## Derived definitions used by the claims -/

/-- Chained application of the maze adapter's `applyOp`: the state transitions
    a run performs, with the first thrown error short-circuiting. -/
def applyOps (levels : List MazeLevel) :
    List Op → MazeState → Except (String × MazeState) MazeState
  | [], s => .ok s
  | op :: rest, s =>
    match mazeApplyOp levels op s with
    | .ok s1 => applyOps levels rest s1
    | .error e => .error e

/-- A cell that is inside the grid and not a wall. -/
def LegalPos (level : MazeLevel) (x y : Int) : Prop :=
  inBounds level x y = true ∧ isBlocked level x y = false

/-- The maze state invariant of C10: the player stands on a legal cell of the
    state's own level. -/
def StateOk (levels : List MazeLevel) (s : MazeState) : Prop :=
  LegalPos (getLevel levels s.levelId) s.player.x s.player.y

/-- The level of the spec's end-to-end scenario as literally written: a 3×3
    empty grid, agent starting at (0,0) facing `N`, goal at (1,1). -/
def demoLevel : MazeLevel := ⟨1, 3, 3, ⟨0, 0, .N⟩, ⟨1, 1⟩, []⟩

/-- The same 3×3 empty-grid level with the start cell moved to (0,2), the
    cell from which one `N` move in the code's screen coordinates reaches
    (0,1). -/
def amendedLevel : MazeLevel := ⟨1, 3, 3, ⟨0, 2, .N⟩, ⟨1, 1⟩, []⟩

/-- The scenario program `[Start, Move{steps:1}, Turn{right}, Move{steps:1}]`. -/
def demoProgram : Program :=
  ⟨[Op.start "b1", Op.move 1 "b2", Op.turn .right "b3", Op.move 1 "b4"]⟩

/-- An adapter application that always succeeds, from a pure transition
    function: the shape of an `applyOp` that never throws. -/
def pureApply {σ : Type} (f : Op → σ → σ) : Op → σ → Except (String × σ) σ :=
  fun op s => .ok (f op s)

/-- Second definition for the repeat-unrolling refinement claim, following the
    spec's words: "execute the entire body sequence exactly `times` times in
    order" — n chained full walks of the body, with no stop check anywhere. -/
def iterNoStop {σ : Type} (A : Op → σ → Except (String × σ) σ) (body : List Op) :
    Nat → RunSt σ → RunRes σ × List Event
  | 0, a => (.ok a, [])
  | n + 1, a =>
    match runOps A noStop body a with
    | (.ok a1, ev1) => ((iterNoStop A body n a1).1, ev1 ++ (iterNoStop A body n a1).2)
    | (.err e a1, ev1) => (.err e a1, ev1)

/-- Second definition for the ordering refinement claim, following the spec's
    words: the block ids of the exact depth-first sequence of the AST,
    including every unrolled repeat iteration. -/
def specStepSeq : List Op → List String
  | [] => []
  | op :: rest =>
    match op with
    | .rep times body _ =>
      op.blockId ::
        ((List.replicate (max 0 times.floor).toNat (specStepSeq body)).flatten ++ specStepSeq rest)
    | _ => op.blockId :: specStepSeq rest
  termination_by ops => sizeOf ops
  decreasing_by all_goals (simp <;> omega)

/-- Second definition for the ordering refinement claim: the ops handed to the
    adapter, in the spec's depth-first order (repeat ops themselves are
    unrolled, not applied). -/
def specAppliedSeq : List Op → List Op
  | [] => []
  | op :: rest =>
    match op with
    | .rep times body _ =>
      (List.replicate (max 0 times.floor).toNat (specAppliedSeq body)).flatten ++ specAppliedSeq rest
    | _ => op :: specAppliedSeq rest
  termination_by ops => sizeOf ops
  decreasing_by all_goals (simp <;> omega)

/-- Event classification used by the walk lemmas: the walk itself emits only
    `onStep` notifications, plus the `"Detenido."` status that a serviced
    `stop()` emits. -/
def StepOrDetenido (e : Event) : Prop :=
  (∃ b, e = Event.step b) ∨ e = Event.status "Detenido."

/-! ## Theorems -/

/-- `countOps` of a replicated move list is its length (helper). -/
theorem countOps_replicate_move (n : Nat) (s : Int) (b : String) :
    countOps (List.replicate n (Op.move s b)) = n := by
  induction n with
  | zero => simp [countOps]
  | succ n ih =>
    rw [List.replicate_succ]
    simp only [countOps, ih]
    omega

/-- C2: `validate` returns normally iff the program is non-empty, begins with
    a start op and its recursive op count is at most 200; each failure mode
    produces its descriptive error; a recursive count of exactly 200 passes
    and one of 201 fails with the too-long error. -/
theorem validateProgram_contract (p : Program) :
    (validateProgram p = .ok () ↔
      p.ops ≠ [] ∧ (∃ op0 rest, p.ops = op0 :: rest ∧ op0.isStart = true) ∧
        countOps p.ops ≤ 200) ∧
    (p.ops = [] → validateProgram p = .error "El programa está vacío.") ∧
    (∀ op0 rest, p.ops = op0 :: rest → op0.isStart = false →
      validateProgram p = .error "El programa debe empezar con start.") ∧
    (∀ op0 rest, p.ops = op0 :: rest → op0.isStart = true → 200 < countOps p.ops →
      validateProgram p = .error "Programa demasiado largo (máximo 200 ops).") ∧
    (countOps (Op.start "s" :: List.replicate 199 (Op.move 1 "m")) = 200 ∧
      validateProgram ⟨Op.start "s" :: List.replicate 199 (Op.move 1 "m")⟩ = .ok ()) ∧
    (countOps (Op.start "s" :: List.replicate 200 (Op.move 1 "m")) = 201 ∧
      validateProgram ⟨Op.start "s" :: List.replicate 200 (Op.move 1 "m")⟩ =
        .error "Programa demasiado largo (máximo 200 ops).") := by
  obtain ⟨ops⟩ := p
  refine ⟨?_, ?_, ?_, ?_, ⟨?_, ?_⟩, ⟨?_, ?_⟩⟩
  · cases ops with
    | nil => simp [validateProgram]
    | cons op0 rest =>
      cases hs : op0.isStart with
      | false =>
        simp only [validateProgram, hs, Bool.not_false, if_true]
        constructor
        · intro h; cases h
        · rintro ⟨-, ⟨op0', rest', heq, hs'⟩, -⟩
          rw [List.cons.injEq] at heq
          rw [heq.1, hs'] at hs
          cases hs
      | true =>
        by_cases hc : countOps (op0 :: rest) > MAX_OPS
        · simp only [validateProgram, hs, Bool.not_true, Bool.false_eq_true, if_false,
            if_pos hc]
          constructor
          · intro h; cases h
          · rintro ⟨-, -, hle⟩
            have h200 : (200 : Nat) < countOps (op0 :: rest) := by
              simpa [MAX_OPS] using hc
            omega
        · simp only [validateProgram, hs, Bool.not_true, Bool.false_eq_true, if_false,
            if_neg hc]
          constructor
          · intro _
            refine ⟨by simp, ⟨op0, rest, rfl, hs⟩, ?_⟩
            simpa [MAX_OPS, Nat.not_lt] using hc
          · intro _; trivial
  · intro h
    simp only at h
    subst h
    rfl
  · intro op0 rest h hs
    simp only at h
    subst h
    simp [validateProgram, hs]
  · intro op0 rest h hs hc
    simp only at h
    subst h
    simp only [validateProgram, hs, Bool.not_true, Bool.false_eq_true, if_false]
    rw [if_pos (by simpa [MAX_OPS] using hc)]
  · simp only [countOps, countOps_replicate_move]
  · simp only [validateProgram, Op.isStart, Bool.not_true, Bool.false_eq_true, if_false]
    rw [if_neg (by simp only [countOps, countOps_replicate_move, MAX_OPS]; omega)]
  · simp only [countOps, countOps_replicate_move]
  · simp only [validateProgram, Op.isStart, Bool.not_true, Bool.false_eq_true, if_false]
    rw [if_pos (by simp only [countOps, countOps_replicate_move, MAX_OPS]; omega)]

/-- C2 witness: the contract applied at concrete programs. -/
theorem validateProgram_contract_witness :
    validateProgram ⟨[]⟩ = .error "El programa está vacío." ∧
    validateProgram ⟨[Op.move 1 "m"]⟩ = .error "El programa debe empezar con start." ∧
    validateProgram ⟨[Op.start "s", Op.move 1 "m"]⟩ = .ok () :=
  ⟨(validateProgram_contract ⟨[]⟩).2.1 rfl,
   (validateProgram_contract ⟨[Op.move 1 "m"]⟩).2.2.1 (Op.move 1 "m") [] rfl rfl,
   (validateProgram_contract ⟨[Op.start "s", Op.move 1 "m"]⟩).1.mpr
     ⟨by simp, ⟨Op.start "s", [Op.move 1 "m"], rfl, rfl⟩, by simp [countOps]⟩⟩

/-- Looking a level up by the id of an already-looked-up level finds the same
    level (helper). -/
theorem getLevel_id (levels : List MazeLevel) (i : Int) :
    getLevel levels (getLevel levels i).id = getLevel levels i := by
  cases hf : levels.find? (fun lv => lv.id == i) with
  | some l =>
    have hid : l.id = i := by simpa using List.find?_some hf
    simp only [getLevel, hf, Option.getD_some, hid, Option.getD]
  | none =>
    simp only [getLevel, hf, Option.getD_none]
    cases levels with
    | nil => simp
    | cons l0 t =>
      simp only [List.headD_cons]
      rw [List.find?_cons_of_pos _ (by simp)]
      simp

/-- When some level carries the requested id, `getLevel` returns a level with
    that id (helper). -/
theorem getLevel_mem_id (levels : List MazeLevel) (i : Int)
    (h : ∃ l ∈ levels, l.id = i) : (getLevel levels i).id = i := by
  obtain ⟨l, hl, hid⟩ := h
  cases hf : levels.find? (fun lv => lv.id == i) with
  | some l2 =>
    have : l2.id = i := by simpa using List.find?_some hf
    simp [getLevel, hf, this]
  | none =>
    exfalso
    have := List.find?_eq_none.mp hf l hl
    simp [hid] at this

/-- Every `Direction` is listed in `DIR_ORDER` (helper). -/
theorem DIR_ORDER_contains (d : Direction) : DIR_ORDER.contains d = true := by
  cases d <;> rfl

/-- C9: once the status is `win` or `error`, `applyOp` returns the state
    unchanged for every op kind — a run that has reached a terminal domain
    status is inert under further ops, and no error is thrown. -/
theorem mazeApplyOp_terminal_inert (levels : List MazeLevel) (op : Op) (s : MazeState)
    (h : s.status = MazeStatus.win ∨ s.status = MazeStatus.error) :
    mazeApplyOp levels op s = .ok s := by
  simp only [mazeApplyOp]
  rw [if_pos h]

/-- C9 witness: a `move` op applied in a `win` state changes nothing. -/
theorem mazeApplyOp_terminal_inert_witness :
    (⟨1, ⟨0, 0, .N⟩, MazeStatus.win, none⟩ : MazeState).status = MazeStatus.win ∧
    mazeApplyOp [demoLevel] (Op.move 3 "b") ⟨1, ⟨0, 0, .N⟩, MazeStatus.win, none⟩ =
      .ok ⟨1, ⟨0, 0, .N⟩, MazeStatus.win, none⟩ :=
  ⟨rfl, mazeApplyOp_terminal_inert [demoLevel] (Op.move 3 "b") _ (Or.inl rfl)⟩

/-- C8 (counterexample): a state whose status is `win` does not round-trip
    through `serializeState`/`deserializeState` — deserialization forces the
    status back to `idle`. -/
theorem serialize_roundtrip_cex :
    deserializeState [demoLevel] (serializeState ⟨1, ⟨0, 0, .N⟩, MazeStatus.win, none⟩) ≠
      ⟨1, ⟨0, 0, .N⟩, MazeStatus.win, none⟩ ∧
    (deserializeState [demoLevel]
        (serializeState ⟨1, ⟨0, 0, .N⟩, MazeStatus.win, none⟩)).status = MazeStatus.idle := by
  decide

/-- C8 (amended): for every state whose `levelId` is the id of some level in
    the list and whose status is `idle`, the `AppState` shape round-trips
    through `serializeState`/`deserializeState`, for all values of player
    position, direction and message; for other statuses deserialization
    resets the status to `idle`. -/
theorem serialize_roundtrip_amended (levels : List MazeLevel) (s : MazeState)
    (hlev : ∃ l ∈ levels, l.id = s.levelId) (hidle : s.status = MazeStatus.idle) :
    deserializeState levels (serializeState s) = s := by
  obtain ⟨lid, ⟨px, py, pdir⟩, stat, msg⟩ := s
  simp only at hidle
  subst hidle
  have h1 : (getLevel levels lid).id = lid := getLevel_mem_id levels lid (by simpa using hlev)
  simp only [serializeState, deserializeState, makeInitialState, DIR_ORDER_contains, if_true,
    getLevel_id, h1]

/-- C8 witness: the amended round-trip at a concrete state. -/
theorem serialize_roundtrip_amended_witness :
    deserializeState [demoLevel] (serializeState ⟨1, ⟨2, 1, .S⟩, MazeStatus.idle, some "hola"⟩) =
      ⟨1, ⟨2, 1, .S⟩, MazeStatus.idle, some "hola"⟩ :=
  serialize_roundtrip_amended [demoLevel] _ ⟨demoLevel, by simp, rfl⟩ rfl

/-- The move step loop leaves the player on a legal cell, both when it
    returns normally and when it throws (helper): a step is committed only
    after the bounds/wall check, and the WIN throw happens on the goal cell,
    which was just checked. -/
theorem moveLoop_legal (level : MazeLevel) (delta : Point) (sign : Int) :
    ∀ (n : Nat) (s : MazeState), LegalPos level s.player.x s.player.y →
      (∀ s', moveLoop level delta sign n s = .ok s' →
        s'.levelId = s.levelId ∧ LegalPos level s'.player.x s'.player.y) ∧
      (∀ e sB, moveLoop level delta sign n s = .error (e, sB) →
        sB.levelId = s.levelId ∧ LegalPos level sB.player.x sB.player.y) := by
  intro n
  induction n with
  | zero =>
    intro s hs
    refine ⟨?_, ?_⟩
    · intro s' h
      simp only [moveLoop] at h
      injection h with h
      subst h
      exact ⟨rfl, hs⟩
    · intro e sB h
      simp only [moveLoop] at h
      exact absurd h (by simp)
  | succ n ih =>
    intro s hs
    obtain ⟨lid, ⟨px, py, pdir⟩, stat, msg⟩ := s
    simp only at hs
    refine ⟨?_, ?_⟩
    · intro s' h
      simp only [moveLoop] at h
      split at h
      · exact absurd h (by simp)
      · next hbad =>
        split at h
        · exact absurd h (by simp)
        · next hgoal =>
          simp only [Bool.or_eq_true, Bool.not_eq_true', not_or, Bool.not_eq_true,
            Bool.not_eq_false] at hbad
          have := (ih ⟨lid, ⟨px + delta.x * sign, py + delta.y * sign, pdir⟩, stat, msg⟩
            ⟨hbad.1, hbad.2⟩).1 s' h
          exact ⟨this.1, this.2⟩
    · intro e sB h
      simp only [moveLoop] at h
      split at h
      · next hbad =>
        injection h with h
        injection h with he hb
        subst he
        subst hb
        exact ⟨rfl, hs⟩
      · next hbad =>
        simp only [Bool.or_eq_true, Bool.not_eq_true', not_or, Bool.not_eq_true,
          Bool.not_eq_false] at hbad
        split at h
        · next hgoal =>
          injection h with h
          injection h with he hb
          subst he
          subst hb
          exact ⟨rfl, hbad.1, hbad.2⟩
        · next hgoal =>
          have := (ih ⟨lid, ⟨px + delta.x * sign, py + delta.y * sign, pdir⟩, stat, msg⟩
            ⟨hbad.1, hbad.2⟩).2 e sB h
          exact ⟨this.1, this.2⟩

/-- One `applyOp` call preserves the legality invariant, normally or on throw,
    and never changes the level (helper). -/
theorem mazeApplyOp_preserves (levels : List MazeLevel) (op : Op) (s : MazeState)
    (hs : StateOk levels s) :
    (∀ s', mazeApplyOp levels op s = .ok s' → s'.levelId = s.levelId ∧ StateOk levels s') ∧
    (∀ e sB, mazeApplyOp levels op s = .error (e, sB) →
      sB.levelId = s.levelId ∧ StateOk levels sB) := by
  by_cases hterm : s.status = MazeStatus.win ∨ s.status = MazeStatus.error
  · constructor
    · intro s' h
      rw [mazeApplyOp_terminal_inert levels op s hterm] at h
      injection h with h
      subst h
      exact ⟨rfl, hs⟩
    · intro e sB h
      rw [mazeApplyOp_terminal_inert levels op s hterm] at h
      exact absurd h (by simp)
  · cases op with
    | turn d b =>
      simp only [mazeApplyOp]
      rw [if_neg hterm]
      constructor
      · intro s' h
        injection h with h
        subst h
        exact ⟨rfl, hs⟩
      · intro e sB h
        exact absurd h (by simp)
    | move steps b =>
      simp only [mazeApplyOp]
      rw [if_neg hterm]
      have hml := moveLoop_legal (getLevel levels s.levelId) (DIR_DELTAS s.player.dir)
        (if 0 ≤ steps then 1 else -1) steps.natAbs s hs
      constructor
      · intro s' h
        have h2 := hml.1 s' h
        refine ⟨h2.1, ?_⟩
        simp only [StateOk, h2.1]
        exact h2.2
      · intro e sB h
        have h2 := hml.2 e sB h
        refine ⟨h2.1, ?_⟩
        simp only [StateOk, h2.1]
        exact h2.2
    | start b =>
      simp only [mazeApplyOp]
      rw [if_neg hterm]
      constructor
      · intro s' h
        injection h with h
        subst h
        exact ⟨rfl, hs⟩
      · intro e sB h
        exact absurd h (by simp)
    | wait ms b =>
      simp only [mazeApplyOp]
      rw [if_neg hterm]
      constructor
      · intro s' h
        injection h with h
        subst h
        exact ⟨rfl, hs⟩
      · intro e sB h
        exact absurd h (by simp)
    | rep t body b =>
      simp only [mazeApplyOp]
      rw [if_neg hterm]
      constructor
      · intro s' h
        injection h with h
        subst h
        exact ⟨rfl, hs⟩
      · intro e sB h
        exact absurd h (by simp)

/-- A chain of `applyOp` calls preserves the legality invariant (helper). -/
theorem applyOps_preserves (levels : List MazeLevel) :
    ∀ (ops : List Op) (s : MazeState), StateOk levels s →
      (∀ s', applyOps levels ops s = .ok s' → StateOk levels s') ∧
      (∀ e sB, applyOps levels ops s = .error (e, sB) → StateOk levels sB) := by
  intro ops
  induction ops with
  | nil =>
    intro s hs
    constructor
    · intro s' h
      simp only [applyOps] at h
      injection h with h
      subst h
      exact hs
    · intro e sB h
      simp only [applyOps] at h
      exact absurd h (by simp)
  | cons op rest ih =>
    intro s hs
    cases hap : mazeApplyOp levels op s with
    | ok s1 =>
      have h1 := (mazeApplyOp_preserves levels op s hs).1 s1 hap
      constructor
      · intro s' h
        simp only [applyOps, hap] at h
        exact (ih s1 h1.2).1 s' h
      · intro e sB h
        simp only [applyOps, hap] at h
        exact (ih s1 h1.2).2 e sB h
    | error eB =>
      obtain ⟨e0, sB0⟩ := eB
      have h1 := (mazeApplyOp_preserves levels op s hs).2 e0 sB0 hap
      constructor
      · intro s' h
        simp only [applyOps, hap] at h
        exact absurd h (by simp)
      · intro e sB h
        simp only [applyOps, hap] at h
        injection h with h
        injection h with he hb
        subst he
        subst hb
        exact h1.2

/-- C10: from the initial state of any level whose start cell is legal, every
    state reached by `applyOp` calls — whether each call returns normally or
    ends throwing a sentinel — keeps the player inside the grid and off the
    walls: a move either throws before an illegal cell is entered or leaves
    the player on a legal cell. -/
theorem maze_reachable_legal (levels : List MazeLevel) (levelId : Int)
    (hstart : LegalPos (getLevel levels levelId) (getLevel levels levelId).start.x
      (getLevel levels levelId).start.y) :
    ∀ ops : List Op,
      (∀ s', applyOps levels ops (makeInitialState levels levelId) = .ok s' →
        inBounds (getLevel levels s'.levelId) s'.player.x s'.player.y = true ∧
        isBlocked (getLevel levels s'.levelId) s'.player.x s'.player.y = false) ∧
      (∀ e sB, applyOps levels ops (makeInitialState levels levelId) = .error (e, sB) →
        inBounds (getLevel levels sB.levelId) sB.player.x sB.player.y = true ∧
        isBlocked (getLevel levels sB.levelId) sB.player.x sB.player.y = false) := by
  have hinit : StateOk levels (makeInitialState levels levelId) := by
    simp only [StateOk, makeInitialState, getLevel_id]
    exact hstart
  intro ops
  constructor
  · intro s' h
    exact (applyOps_preserves levels ops _ hinit).1 s' h
  · intro e sB h
    exact (applyOps_preserves levels ops _ hinit).2 e sB h

/-- C10 witness: the invariant applied on the amended demo level after one
    move. -/
theorem maze_reachable_legal_witness :
    inBounds (getLevel [amendedLevel] 1) 0 1 = true ∧
    isBlocked (getLevel [amendedLevel] 1) 0 1 = false := by
  have h := (maze_reachable_legal [amendedLevel] 1 ⟨by decide, by decide⟩ [Op.move 1 "m"]).1
    ⟨1, ⟨0, 1, .N⟩, .idle, none⟩ (by decide)
  exact h

/-- The walk of an empty op list does nothing (helper). -/
theorem runOps_nil {σ : Type} (A : Op → σ → Except (String × σ) σ) (κ : Nat → Bool)
    (a : RunSt σ) : runOps A κ [] a = (.ok a, []) := by
  simp [runOps]

/-- The stopped flag is checked before every op: a stopped walk executes
    nothing, emits nothing and changes nothing (helper). -/
theorem runOps_stopped_entry {σ : Type} (A : Op → σ → Except (String × σ) σ) (κ : Nat → Bool)
    (ops : List Op) (a : RunSt σ) (h : a.stopped = true) :
    runOps A κ ops a = (.ok a, []) := by
  cases ops with
  | nil => simp [runOps]
  | cons op rest => cases op <;> simp [runOps, h]

/-- The stopped flag is checked before every repeat iteration: a stopped
    repeat loop performs no iteration (helper). -/
theorem iterStop_stopped_entry {σ : Type} (f : RunSt σ → RunRes σ × List Event)
    (n : Nat) (a : RunSt σ) (h : a.stopped = true) : iterStop f n a = (.ok a, []) := by
  cases n with
  | zero => rfl
  | succ n => simp [iterStop, h]

/-- Strong induction on the size of an op list (helper). -/
theorem opList_strongRec {P : List Op → Prop}
    (h : ∀ ops, (∀ ops2, sizeOf ops2 < sizeOf ops → P ops2) → P ops) :
    ∀ ops, P ops := by
  intro ops
  have H : ∀ (n : Nat) (l : List Op), sizeOf l ≤ n → P l := by
    intro n
    induction n with
    | zero =>
      intro l hl
      exact h l (fun l2 h2 => absurd (Nat.lt_of_lt_of_le h2 hl) (Nat.not_lt_zero _))
    | succ n ih =>
      intro l hl
      exact h l (fun l2 h2 => ih l2 (by omega))
  exact H (sizeOf ops) ops (Nat.le_refl _)

/-- A repeat body is smaller than the list its repeat op heads (helper). -/
theorem sizeOf_body_lt (times : Rat) (body : List Op) (bid : String) (rest : List Op) :
    sizeOf body < sizeOf (Op.rep times body bid :: rest) := by
  simp
  omega

/-- A tail is smaller than its list (helper). -/
theorem sizeOf_rest_lt (op : Op) (rest : List Op) : sizeOf rest < sizeOf (op :: rest) := by
  simp

/-- What a serviced await boundary can do (helper): the adapter state is
    untouched; the stopped flag can only be raised together with the
    `"Detenido."` emission; under the never-stopping oracle nothing happens
    beyond advancing the await counter. -/
theorem serviceStop_spec {σ : Type} (κ : Nat → Bool) (b : RunSt σ) :
    (serviceStop κ b).1.st = b.st ∧
    ((serviceStop κ b).1.stopped = true →
      b.stopped = true ∨ Event.status "Detenido." ∈ (serviceStop κ b).2) ∧
    (∀ e ∈ (serviceStop κ b).2, StepOrDetenido e) ∧
    (κ = noStop → (serviceStop κ b).1 = { b with k := b.k + 1 } ∧ (serviceStop κ b).2 = []) := by
  by_cases h : (κ b.k && !b.stopped) = true
  · refine ⟨by simp [serviceStop, h], ?_, ?_, ?_⟩
    · intro _
      right
      simp [serviceStop, h]
    · intro e he
      simp [serviceStop, h] at he
      exact Or.inr he
    · intro hκ
      subst hκ
      simp [noStop] at h
  · refine ⟨by simp [serviceStop, h], ?_, ?_, ?_⟩
    · intro hstp
      left
      simp only [serviceStop, h, if_false, Bool.false_eq_true] at hstp
      exact hstp
    · intro e he
      simp [serviceStop, h] at he
    · intro _
      simp [serviceStop, h]

/-- What an awaited sleep can do (helper): same as a plain await boundary,
    except that the timer bookkeeping may change. -/
theorem sleepStep_spec {σ : Type} (κ : Nat → Bool) (b : RunSt σ) :
    (sleepStep κ b).1.st = b.st ∧
    ((sleepStep κ b).1.stopped = true →
      b.stopped = true ∨ Event.status "Detenido." ∈ (sleepStep κ b).2) ∧
    (∀ e ∈ (sleepStep κ b).2, StepOrDetenido e) ∧
    (κ = noStop → (sleepStep κ b).1.st = b.st ∧ (sleepStep κ b).1.stopped = b.stopped ∧
      (sleepStep κ b).2 = []) := by
  by_cases h : (κ b.k && !b.stopped) = true
  · refine ⟨by simp [sleepStep, h], ?_, ?_, ?_⟩
    · intro _
      right
      simp [sleepStep, h]
    · intro e he
      simp [sleepStep, h] at he
      exact Or.inr he
    · intro hκ
      subst hκ
      simp [noStop] at h
  · refine ⟨by simp [sleepStep, h], ?_, ?_, ?_⟩
    · intro hstp
      left
      simp only [sleepStep, h, if_false, Bool.false_eq_true] at hstp
      exact hstp
    · intro e he
      simp [sleepStep, h] at he
    · intro _
      simp [sleepStep, h]

/-- Unfolding of the walk at a repeat op that is not skipped (helper). -/
theorem runOps_cons_rep {σ : Type} (A : Op → σ → Except (String × σ) σ) (κ : Nat → Bool)
    (times : Rat) (body : List Op) (bid : String) (rest : List Op) (a : RunSt σ)
    (hsf : a.stopped = false) :
    runOps A κ (Op.rep times body bid :: rest) a =
      match iterStop (fun b => runOps A κ body b) (max 0 times.floor).toNat a with
      | (.ok a1, ev1) =>
        ((runOps A κ rest a1).1, Event.step bid :: (ev1 ++ (runOps A κ rest a1).2))
      | (.err e a1, ev1) => (.err e a1, Event.step bid :: ev1) := by
  simp [runOps, hsf, Op.blockId]

/-- Unfolding of the walk at a non-repeat, non-wait op that is not skipped
    (helper): apply through the adapter, then pass one await boundary. -/
theorem runOps_cons_simple {σ : Type} (A : Op → σ → Except (String × σ) σ) (κ : Nat → Bool)
    (op : Op) (rest : List Op) (a : RunSt σ) (hsf : a.stopped = false)
    (hnr : ∀ t bo bi, op ≠ Op.rep t bo bi) (hnw : ∀ m bi, op ≠ Op.wait m bi) :
    runOps A κ (op :: rest) a =
      match A op a.st with
      | .error (e, sBad) => (.err e { a with st := sBad }, [Event.step op.blockId])
      | .ok s1 =>
        ((runOps A κ rest (serviceStop κ { a with st := s1 }).1).1,
          Event.step op.blockId ::
            ((serviceStop κ { a with st := s1 }).2 ++
              (runOps A κ rest (serviceStop κ { a with st := s1 }).1).2)) := by
  cases op with
  | rep t bo bi => exact absurd rfl (hnr t bo bi)
  | wait m bi => exact absurd rfl (hnw m bi)
  | start b =>
    cases hA : A (Op.start b) a.st with
    | error eB =>
      obtain ⟨e0, sB⟩ := eB
      simp [runOps, hsf, hA, Op.blockId]
    | ok s1 => simp [runOps, hsf, hA, Op.blockId]
  | move s b =>
    cases hA : A (Op.move s b) a.st with
    | error eB =>
      obtain ⟨e0, sB⟩ := eB
      simp [runOps, hsf, hA, Op.blockId]
    | ok s1 => simp [runOps, hsf, hA, Op.blockId]
  | turn d b =>
    cases hA : A (Op.turn d b) a.st with
    | error eB =>
      obtain ⟨e0, sB⟩ := eB
      simp [runOps, hsf, hA, Op.blockId]
    | ok s1 => simp [runOps, hsf, hA, Op.blockId]

/-- Unfolding of the walk at a wait op that is not skipped (helper): apply
    through the adapter, pass the applyOp await boundary, then the sleep. -/
theorem runOps_cons_wait {σ : Type} (A : Op → σ → Except (String × σ) σ) (κ : Nat → Bool)
    (ms : Int) (b : String) (rest : List Op) (a : RunSt σ) (hsf : a.stopped = false) :
    runOps A κ (Op.wait ms b :: rest) a =
      match A (Op.wait ms b) a.st with
      | .error (e, sBad) => (.err e { a with st := sBad }, [Event.step b])
      | .ok s1 =>
        ((runOps A κ rest (sleepStep κ (serviceStop κ { a with st := s1 }).1).1).1,
          Event.step b ::
            ((serviceStop κ { a with st := s1 }).2 ++
              (sleepStep κ (serviceStop κ { a with st := s1 }).1).2 ++
              (runOps A κ rest (sleepStep κ (serviceStop κ { a with st := s1 }).1).1).2)) := by
  cases hA : A (Op.wait ms b) a.st with
  | error eB =>
    obtain ⟨e0, sB⟩ := eB
    simp [runOps, hsf, hA, Op.blockId]
  | ok s1 => simp [runOps, hsf, hA, Op.blockId]

/-- The repeat loop only relays walk events, and once the stopped flag has
    been raised during it the `"Detenido."` status is among them (helper). -/
theorem iterStop_inv {σ : Type} (g : RunSt σ → RunRes σ × List Event)
    (hg : ∀ b : RunSt σ,
      (∀ e ∈ (g b).2, StepOrDetenido e) ∧
      (b.stopped = false → (g b).1.st.stopped = true →
        Event.status "Detenido." ∈ (g b).2)) :
    ∀ (n : Nat) (a : RunSt σ),
      (∀ e ∈ (iterStop g n a).2, StepOrDetenido e) ∧
      (a.stopped = false → (iterStop g n a).1.st.stopped = true →
        Event.status "Detenido." ∈ (iterStop g n a).2) := by
  intro n
  induction n with
  | zero =>
    intro a
    refine ⟨?_, ?_⟩
    · intro e he
      simp [iterStop] at he
    · intro h1 h2
      simp only [iterStop, RunRes.st] at h2
      exact absurd h2 (by simp [h1])
  | succ n ih =>
    intro a
    by_cases hstp : a.stopped = true
    · rw [iterStop_stopped_entry g (n + 1) a hstp]
      refine ⟨?_, ?_⟩
      · intro e he
        simp at he
      · intro h1
        exact absurd hstp (by simp [h1])
    · rw [Bool.not_eq_true] at hstp
      cases hga : g a with
      | mk r ev1 =>
        cases r with
        | ok a1 =>
          have hred : iterStop g (n + 1) a = ((iterStop g n a1).1, ev1 ++ (iterStop g n a1).2) := by
            simp [iterStop, hstp, hga]
          rw [hred]
          refine ⟨?_, ?_⟩
          · intro e he
            rcases List.mem_append.mp he with h | h
            · exact (hg a).1 e (by rw [hga]; exact h)
            · exact (ih a1).1 e h
          · intro h1 h2
            by_cases ha1 : a1.stopped = true
            · have hD := (hg a).2 hstp (by rw [hga]; exact ha1)
              rw [hga] at hD
              exact List.mem_append.mpr (Or.inl hD)
            · rw [Bool.not_eq_true] at ha1
              exact List.mem_append.mpr (Or.inr ((ih a1).2 ha1 h2))
        | err e1 a1 =>
          have hred : iterStop g (n + 1) a = (.err e1 a1, ev1) := by
            simp [iterStop, hstp, hga]
          rw [hred]
          refine ⟨?_, ?_⟩
          · intro e he
            exact (hg a).1 e (by rw [hga]; exact he)
          · intro h1 h2
            have hD := (hg a).2 hstp (by rw [hga]; exact h2)
            rw [hga] at hD
            exact hD

/-- Under the never-stopping oracle the repeat loop never raises the stopped
    flag (helper). -/
theorem iterStop_preserve {σ : Type} (g : RunSt σ → RunRes σ × List Event)
    (hgN : ∀ b : RunSt σ, b.stopped = false → (g b).1.st.stopped = false) :
    ∀ (n : Nat) (a : RunSt σ), a.stopped = false →
      (iterStop g n a).1.st.stopped = false := by
  intro n
  induction n with
  | zero =>
    intro a h
    simpa [iterStop, RunRes.st] using h
  | succ n ih =>
    intro a h
    cases hga : g a with
    | mk r ev1 =>
      cases r with
      | ok a1 =>
        have hred : iterStop g (n + 1) a = ((iterStop g n a1).1, ev1 ++ (iterStop g n a1).2) := by
          simp [iterStop, h, hga]
        rw [hred]
        have ha1 : a1.stopped = false := by
          have h2 := hgN a h
          rw [hga] at h2
          exact h2
        exact ih a1 ha1
      | err e1 a1 =>
        have hred : iterStop g (n + 1) a = (.err e1 a1, ev1) := by
          simp [iterStop, h, hga]
        rw [hred]
        have h2 := hgN a h
        rw [hga] at h2
        exact h2

/-- Walk invariants (helper), for every oracle and adapter: (1) the walk emits
    only `onStep` events plus the `"Detenido."` of a serviced stop; (2) if the
    stopped flag got raised during the walk, `"Detenido."` was emitted; (3)
    under the never-stopping oracle the flag is never raised. -/
theorem runOps_inv {σ : Type} (A : Op → σ → Except (String × σ) σ) (κ : Nat → Bool) :
    ∀ (ops : List Op) (a : RunSt σ),
      (∀ e ∈ (runOps A κ ops a).2, StepOrDetenido e) ∧
      (a.stopped = false → (runOps A κ ops a).1.st.stopped = true →
        Event.status "Detenido." ∈ (runOps A κ ops a).2) ∧
      (κ = noStop → a.stopped = false → (runOps A κ ops a).1.st.stopped = false) := by
  refine opList_strongRec ?_
  intro ops SIH
  cases ops with
  | nil =>
    intro a
    rw [runOps_nil]
    refine ⟨?_, ?_, ?_⟩
    · intro e he
      simp at he
    · intro h1 h2
      simp only [RunRes.st] at h2
      exact absurd h2 (by simp [h1])
    · intro _ h1
      simpa [RunRes.st] using h1
  | cons op rest =>
    intro a
    by_cases hstp0 : a.stopped = true
    · rw [runOps_stopped_entry A κ _ a hstp0]
      refine ⟨?_, ?_, ?_⟩
      · intro e he
        simp at he
      · intro h1 _
        exact absurd hstp0 (by simp [h1])
      · intro _ h1
        exact absurd hstp0 (by simp [h1])
    · rw [Bool.not_eq_true] at hstp0
      have IHrest := SIH rest (sizeOf_rest_lt op rest)
      by_cases hrep : ∃ t bo bi, op = Op.rep t bo bi
      · obtain ⟨times, body, bid, rfl⟩ := hrep
        have IHbody := SIH body (sizeOf_body_lt times body bid rest)
        have hg : ∀ b : RunSt σ,
            (∀ e ∈ (runOps A κ body b).2, StepOrDetenido e) ∧
            (b.stopped = false → (runOps A κ body b).1.st.stopped = true →
              Event.status "Detenido." ∈ (runOps A κ body b).2) :=
          fun b => ⟨(IHbody b).1, (IHbody b).2.1⟩
        have hIt := iterStop_inv (fun b => runOps A κ body b) hg ((max 0 times.floor).toNat) a
        rw [runOps_cons_rep A κ times body bid rest a hstp0]
        cases hit : iterStop (fun b => runOps A κ body b) ((max 0 times.floor).toNat) a with
        | mk r ev1 =>
          rw [hit] at hIt
          cases r with
          | ok a1 =>
            dsimp only
            refine ⟨?_, ?_, ?_⟩
            · intro e he
              rcases List.mem_cons.mp he with h | h
              · exact Or.inl ⟨bid, h⟩
              · rcases List.mem_append.mp h with h | h
                · exact hIt.1 e h
                · exact (IHrest a1).1 e h
            · intro h1 h2
              by_cases ha1 : a1.stopped = true
              · have hD := hIt.2 hstp0 ha1
                exact List.mem_cons_of_mem _ (List.mem_append.mpr (Or.inl hD))
              · rw [Bool.not_eq_true] at ha1
                exact List.mem_cons_of_mem _
                  (List.mem_append.mpr (Or.inr ((IHrest a1).2.1 ha1 h2)))
            · intro hκ h1
              have hgN : ∀ b : RunSt σ, b.stopped = false →
                  (runOps A κ body b).1.st.stopped = false :=
                fun b hb => (IHbody b).2.2 hκ hb
              have hp := iterStop_preserve (fun b => runOps A κ body b) hgN
                ((max 0 times.floor).toNat) a hstp0
              rw [hit] at hp
              exact (IHrest a1).2.2 hκ hp
          | err e1 a1 =>
            dsimp only
            refine ⟨?_, ?_, ?_⟩
            · intro e he
              rcases List.mem_cons.mp he with h | h
              · exact Or.inl ⟨bid, h⟩
              · exact hIt.1 e h
            · intro h1 h2
              exact List.mem_cons_of_mem _ (hIt.2 hstp0 h2)
            · intro hκ h1
              have hgN : ∀ b : RunSt σ, b.stopped = false →
                  (runOps A κ body b).1.st.stopped = false :=
                fun b hb => (IHbody b).2.2 hκ hb
              have hp := iterStop_preserve (fun b => runOps A κ body b) hgN
                ((max 0 times.floor).toNat) a hstp0
              rw [hit] at hp
              exact hp
      · by_cases hwait : ∃ m bi, op = Op.wait m bi
        · obtain ⟨ms, b, rfl⟩ := hwait
          rw [runOps_cons_wait A κ ms b rest a hstp0]
          cases hA : A (Op.wait ms b) a.st with
          | error eB =>
            obtain ⟨e0, sB⟩ := eB
            dsimp only
            refine ⟨?_, ?_, ?_⟩
            · intro e he
              simp only [List.mem_singleton] at he
              subst he
              exact Or.inl ⟨b, rfl⟩
            · intro h1 h2
              simp only [RunRes.st] at h2
              exact absurd h2 (by simp [hstp0])
            · intro _ _
              simp [RunRes.st, hstp0]
          | ok s1 =>
            have hsvc := serviceStop_spec κ ({ a with st := s1 })
            cases hsv : serviceStop κ { a with st := s1 } with
            | mk a1 evS =>
              rw [hsv] at hsvc
              dsimp only at hsvc
              dsimp only
              rw [hsv]
              dsimp only
              have hslp := sleepStep_spec κ a1
              cases hsl : sleepStep κ a1 with
              | mk a2 evW =>
                rw [hsl] at hslp
                dsimp only at hslp
                dsimp only
                refine ⟨?_, ?_, ?_⟩
                · intro e he
                  rcases List.mem_cons.mp he with h | h
                  · exact Or.inl ⟨b, h⟩
                  · rcases List.mem_append.mp h with h | h
                    · rcases List.mem_append.mp h with h | h
                      · exact hsvc.2.2.1 e h
                      · exact hslp.2.2.1 e h
                    · exact (IHrest a2).1 e h
                · intro h1 h2
                  by_cases ha2 : a2.stopped = true
                  · rcases hslp.2.1 ha2 with ha1 | hD
                    · rcases hsvc.2.1 ha1 with hc | hD2
                      · exact absurd hc (by simp [hstp0])
                      · exact List.mem_cons_of_mem _
                          (List.mem_append.mpr (Or.inl (List.mem_append.mpr (Or.inl hD2))))
                    · exact List.mem_cons_of_mem _
                        (List.mem_append.mpr (Or.inl (List.mem_append.mpr (Or.inr hD))))
                  · rw [Bool.not_eq_true] at ha2
                    exact List.mem_cons_of_mem _
                      (List.mem_append.mpr (Or.inr ((IHrest a2).2.1 ha2 h2)))
                · intro hκ h1
                  obtain ⟨ha1eq, hevS⟩ := hsvc.2.2.2 hκ
                  obtain ⟨_, ha2st, _⟩ := hslp.2.2.2 hκ
                  have ha1 : a1.stopped = false := by
                    rw [ha1eq]
                    exact hstp0
                  have ha2 : a2.stopped = false := by
                    rw [ha2st]
                    exact ha1
                  exact (IHrest a2).2.2 hκ ha2
        · have hnr : ∀ t bo bi, op ≠ Op.rep t bo bi := fun t bo bi h => hrep ⟨t, bo, bi, h⟩
          have hnw : ∀ m bi, op ≠ Op.wait m bi := fun m bi h => hwait ⟨m, bi, h⟩
          rw [runOps_cons_simple A κ op rest a hstp0 hnr hnw]
          cases hA : A op a.st with
          | error eB =>
            obtain ⟨e0, sB⟩ := eB
            dsimp only
            refine ⟨?_, ?_, ?_⟩
            · intro e he
              simp only [List.mem_singleton] at he
              subst he
              exact Or.inl ⟨op.blockId, rfl⟩
            · intro h1 h2
              simp only [RunRes.st] at h2
              exact absurd h2 (by simp [hstp0])
            · intro _ _
              simp [RunRes.st, hstp0]
          | ok s1 =>
            have hsvc := serviceStop_spec κ ({ a with st := s1 })
            cases hsv : serviceStop κ { a with st := s1 } with
            | mk a1 evS =>
              rw [hsv] at hsvc
              dsimp only at hsvc
              dsimp only
              rw [hsv]
              dsimp only
              refine ⟨?_, ?_, ?_⟩
              · intro e he
                rcases List.mem_cons.mp he with h | h
                · exact Or.inl ⟨op.blockId, h⟩
                · rcases List.mem_append.mp h with h | h
                  · exact hsvc.2.2.1 e h
                  · exact (IHrest a1).1 e h
              · intro h1 h2
                by_cases ha1 : a1.stopped = true
                · rcases hsvc.2.1 ha1 with hc | hD
                  · exact absurd hc (by simp [hstp0])
                  · exact List.mem_cons_of_mem _ (List.mem_append.mpr (Or.inl hD))
                · rw [Bool.not_eq_true] at ha1
                  exact List.mem_cons_of_mem _
                    (List.mem_append.mpr (Or.inr ((IHrest a1).2.1 ha1 h2)))
              · intro hκ h1
                obtain ⟨ha1eq, hevS⟩ := hsvc.2.2.2 hκ
                have ha1 : a1.stopped = false := by
                  rw [ha1eq]
                  exact hstp0
                exact (IHrest a1).2.2 hκ ha1

/-- With no stop requested, the stop-checking repeat loop coincides with the
    spec's plain n-fold body execution (helper). -/
theorem iterStop_eq_iterNoStop {σ : Type} (A : Op → σ → Except (String × σ) σ)
    (body : List Op) :
    ∀ (n : Nat) (a : RunSt σ), a.stopped = false →
      iterStop (fun b => runOps A noStop body b) n a = iterNoStop A body n a := by
  intro n
  induction n with
  | zero =>
    intro a _
    rfl
  | succ n ih =>
    intro a h
    cases hb : runOps A noStop body a with
    | mk r ev1 =>
      cases r with
      | ok a1 =>
        have ha1 : a1.stopped = false := by
          have h2 := (runOps_inv A noStop body a).2.2 rfl h
          rw [hb] at h2
          exact h2
        have h1 : iterStop (fun b => runOps A noStop body b) (n + 1) a =
            ((iterStop (fun b => runOps A noStop body b) n a1).1,
              ev1 ++ (iterStop (fun b => runOps A noStop body b) n a1).2) := by
          simp [iterStop, h, hb]
        have h2 : iterNoStop A body (n + 1) a =
            ((iterNoStop A body n a1).1, ev1 ++ (iterNoStop A body n a1).2) := by
          simp [iterNoStop, hb]
        rw [h1, h2, ih a1 ha1]
      | err e1 a1 =>
        have h1 : iterStop (fun b => runOps A noStop body b) (n + 1) a = (.err e1 a1, ev1) := by
          simp [iterStop, h, hb]
        have h2 : iterNoStop A body (n + 1) a = (.err e1 a1, ev1) := by
          simp [iterNoStop, hb]
        rw [h1, h2]

/-- C3: a repeat op reached with no stop requested executes its full body
    exactly `max(0, floor(times))` times, in order (the stop-checking loop
    equals the spec's plain unrolling, and the walk of the repeat op is the
    step event followed by exactly that unrolling); a stop request is
    observed at the op boundary and at every iteration boundary, and once
    observed nothing further executes. -/
theorem repeat_unrolling {σ : Type} (A : Op → σ → Except (String × σ) σ) :
    (∀ (body : List Op) (n : Nat) (a : RunSt σ), a.stopped = false →
      iterStop (fun b => runOps A noStop body b) n a = iterNoStop A body n a) ∧
    (∀ (times : Rat) (body : List Op) (bid : String) (a : RunSt σ), a.stopped = false →
      (runOps A noStop [Op.rep times body bid] a).1 =
        (iterNoStop A body (max 0 times.floor).toNat a).1 ∧
      (runOps A noStop [Op.rep times body bid] a).2 =
        Event.step bid :: (iterNoStop A body (max 0 times.floor).toNat a).2) ∧
    (∀ (κ : Nat → Bool) (ops : List Op) (a : RunSt σ), a.stopped = true →
      runOps A κ ops a = (.ok a, [])) ∧
    (∀ (f : RunSt σ → RunRes σ × List Event) (n : Nat) (a : RunSt σ), a.stopped = true →
      iterStop f n a = (.ok a, [])) := by
  refine ⟨iterStop_eq_iterNoStop A, ?_, ?_, ?_⟩
  · intro times body bid a hsf
    have he := iterStop_eq_iterNoStop A body ((max 0 times.floor).toNat) a hsf
    rw [runOps_cons_rep A noStop times body bid [] a hsf]
    cases hit : iterStop (fun b => runOps A noStop body b) ((max 0 times.floor).toNat) a with
    | mk r ev1 =>
      rw [hit] at he
      cases r with
      | ok a1 =>
        dsimp only
        rw [runOps_nil, ← he]
        exact ⟨rfl, by simp⟩
      | err e1 a1 =>
        dsimp only
        rw [← he]
        exact ⟨rfl, rfl⟩
  · intro κ ops a h
    exact runOps_stopped_entry A κ ops a h
  · intro f n a h
    exact iterStop_stopped_entry f n a h

/-- C3 witness: the unrolling equality and the stopped-entry no-op at concrete
    inputs. -/
theorem repeat_unrolling_witness :
    iterStop (fun b => runOps (pureApply (fun _ (s : Int) => s + 1)) noStop [Op.move 1 "m"] b) 2
        ⟨0, false, 0, []⟩ =
      iterNoStop (pureApply (fun _ (s : Int) => s + 1)) [Op.move 1 "m"] 2 ⟨0, false, 0, []⟩ ∧
    runOps (pureApply (fun _ (s : Int) => s + 1)) noStop [Op.move 1 "m"] ⟨5, true, 0, []⟩ =
      (.ok ⟨5, true, 0, []⟩, []) :=
  ⟨(repeat_unrolling (pureApply (fun _ (s : Int) => s + 1))).1 [Op.move 1 "m"] 2 _ rfl,
   (repeat_unrolling (pureApply (fun _ (s : Int) => s + 1))).2.2.1 noStop [Op.move 1 "m"] _ rfl⟩

/-- Walk events never contain `onDone` or the normal-completion status
    (helper). -/
theorem walk_events_no_done (ev : List Event) (h : ∀ e ∈ ev, StepOrDetenido e) :
    Event.done ∉ ev ∧ Event.status "Finalizado." ∉ ev := by
  constructor
  · intro hm
    rcases h _ hm with ⟨b2, hb⟩ | hb <;> simp at hb
  · intro hm
    rcases h _ hm with ⟨b2, hb⟩ | hb <;> simp at hb

/-- C4: an error thrown by `applyOp` (the WIN/CHOQUE sentinels included)
    terminates the walk at the current op and is passed to `onError`;
    `onDone` and the normal-completion status are not emitted; the state
    mutations already applied stay in the final state (no rollback). -/
theorem error_terminates_run {σ : Type} (A : RuntimeAdapter σ) (κ : Nat → Bool)
    (program : Program) (init : σ) (e : String) (aE : RunSt σ) (ev : List Event)
    (h : runOps A.applyOp κ program.ops ⟨A.reset init, false, 0, []⟩ = (.err e aE, ev)) :
    runProgram A κ program init =
      ⟨Event.status "Ejecutando..." :: (ev ++ [Event.error e]), aE.st, aE.stopped, aE.timers,
        false⟩ ∧
    Event.done ∉ (runProgram A κ program init).events ∧
    Event.status "Finalizado." ∉ (runProgram A κ program init).events := by
  have hev : ∀ e2 ∈ ev, StepOrDetenido e2 := by
    have h2 := (runOps_inv A.applyOp κ program.ops ⟨A.reset init, false, 0, []⟩).1
    rw [h] at h2
    exact h2
  have hout : runProgram A κ program init =
      ⟨Event.status "Ejecutando..." :: (ev ++ [Event.error e]), aE.st, aE.stopped, aE.timers,
        false⟩ := by
    simp only [runProgram]
    rw [h]
  refine ⟨hout, ?_, ?_⟩
  · rw [hout]
    intro hmem
    rcases List.mem_cons.mp hmem with hc | hc
    · simp at hc
    · rcases List.mem_append.mp hc with hc | hc
      · exact (walk_events_no_done ev hev).1 hc
      · simp at hc
  · rw [hout]
    intro hmem
    rcases List.mem_cons.mp hmem with hc | hc
    · simp at hc
    · rcases List.mem_append.mp hc with hc | hc
      · exact (walk_events_no_done ev hev).2 hc
      · simp at hc

/-- C5: `onDone` is emitted iff the walk completes with no stop request and no
    error, and then the `"Finalizado."` status follows it; when `stop()` was
    called, `"Detenido."` is emitted and `onDone` is not; `isRunning()` is
    false in every terminal case. -/
theorem completion_contract {σ : Type} (A : RuntimeAdapter σ) (κ : Nat → Bool)
    (program : Program) (init : σ) :
    (runProgram A κ program init).running = false ∧
    (Event.done ∈ (runProgram A κ program init).events ↔
      ∃ a ev, runOps A.applyOp κ program.ops ⟨A.reset init, false, 0, []⟩ = (.ok a, ev) ∧
        a.stopped = false) ∧
    (∀ a ev, runOps A.applyOp κ program.ops ⟨A.reset init, false, 0, []⟩ = (.ok a, ev) →
      a.stopped = false →
      (runProgram A κ program init).events =
        Event.status "Ejecutando..." :: (ev ++ [Event.done, Event.status "Finalizado."])) ∧
    (∀ a ev, runOps A.applyOp κ program.ops ⟨A.reset init, false, 0, []⟩ = (.ok a, ev) →
      a.stopped = true →
      Event.status "Detenido." ∈ (runProgram A κ program init).events ∧
      Event.done ∉ (runProgram A κ program init).events) := by
  have hrun : (runProgram A κ program init).running = false := by
    simp only [runProgram]
    split
    · split <;> rfl
    · rfl
  have hev : ∀ e2 ∈ (runOps A.applyOp κ program.ops ⟨A.reset init, false, 0, []⟩).2,
      StepOrDetenido e2 :=
    (runOps_inv A.applyOp κ program.ops ⟨A.reset init, false, 0, []⟩).1
  refine ⟨hrun, ?_, ?_, ?_⟩
  · cases hr : runOps A.applyOp κ program.ops ⟨A.reset init, false, 0, []⟩ with
    | mk r ev0 =>
      rw [hr] at hev
      cases r with
      | ok a =>
        by_cases hstop : a.stopped = true
        · have hout : runProgram A κ program init =
              ⟨Event.status "Ejecutando..." :: ev0, a.st, true, a.timers, false⟩ := by
            simp only [runProgram]
            rw [hr]
            dsimp only
            rw [hstop]
            rfl
          rw [hout]
          constructor
          · intro hmem
            rcases List.mem_cons.mp hmem with hc | hc
            · simp at hc
            · exact absurd hc (walk_events_no_done ev0 hev).1
          · rintro ⟨a2, ev2, heq, hst2⟩
            injection heq with h1 h2
            injection h1 with h1
            subst h1
            exact absurd hstop (by simp [hst2])
        · rw [Bool.not_eq_true] at hstop
          have hout : runProgram A κ program init =
              ⟨Event.status "Ejecutando..." ::
                  (ev0 ++ [Event.done, Event.status "Finalizado."]),
                a.st, false, a.timers, false⟩ := by
            simp only [runProgram]
            rw [hr]
            dsimp only
            rw [hstop]
            rfl
          rw [hout]
          constructor
          · intro _
            exact ⟨a, ev0, rfl, hstop⟩
          · intro _
            simp
      | err e1 a1 =>
        have hout : runProgram A κ program init =
            ⟨Event.status "Ejecutando..." :: (ev0 ++ [Event.error e1]), a1.st, a1.stopped,
              a1.timers, false⟩ := by
          simp only [runProgram]
          rw [hr]
        rw [hout]
        constructor
        · intro hmem
          rcases List.mem_cons.mp hmem with hc | hc
          · simp at hc
          · rcases List.mem_append.mp hc with hc | hc
            · exact absurd hc (walk_events_no_done ev0 hev).1
            · simp at hc
        · rintro ⟨a2, ev2, heq, hst2⟩
          exact absurd heq (by simp)
  · intro a ev hr hstop
    simp only [runProgram]
    rw [hr]
    dsimp only
    rw [hstop]
    rfl
  · intro a ev hr hstop
    have hD : Event.status "Detenido." ∈ ev := by
      have h2 := (runOps_inv A.applyOp κ program.ops ⟨A.reset init, false, 0, []⟩).2.1 rfl
      rw [hr] at h2
      exact h2 hstop
    have hout : runProgram A κ program init =
        ⟨Event.status "Ejecutando..." :: ev, a.st, true, a.timers, false⟩ := by
      simp only [runProgram]
      rw [hr]
      dsimp only
      rw [hstop]
      rfl
    rw [hout]
    constructor
    · exact List.mem_cons_of_mem _ hD
    · intro hmem
      rcases List.mem_cons.mp hmem with hc | hc
      · simp at hc
      · have hev : ∀ e2 ∈ ev, StepOrDetenido e2 := by
          have h2 := (runOps_inv A.applyOp κ program.ops ⟨A.reset init, false, 0, []⟩).1
          rw [hr] at h2
          exact h2
        exact absurd hc (walk_events_no_done ev hev).1

/-- C6: a `stop()` serviced while a wait op's delay is pending drains every
    pending timer, unblocks the suspended walk, and no further op of the
    sequence executes; a walk that ended stopped never gets `onDone`; calling
    `stop()` when not running is a no-op. -/
theorem stop_cancels_wait {σ : Type} (A : Op → σ → Except (String × σ) σ) (κ : Nat → Bool)
    (ms : Int) (b : String) (rest : List Op) (a : RunSt σ) (s1 : σ)
    (hsf : a.stopped = false) (hA : A (Op.wait ms b) a.st = .ok s1)
    (hκ1 : κ a.k = false) (hκ2 : κ (a.k + 1) = true) :
    runOps A κ (Op.wait ms b :: rest) a =
      (.ok ⟨s1, true, a.k + 1 + 1, []⟩, [Event.step b, Event.status "Detenido."]) ∧
    (∀ (Ad : RuntimeAdapter σ) (κ2 : Nat → Bool) (program : Program) (init : σ)
        (a2 : RunSt σ) (ev2 : List Event),
      runOps Ad.applyOp κ2 program.ops ⟨Ad.reset init, false, 0, []⟩ = (.ok a2, ev2) →
      a2.stopped = true → Event.done ∉ (runProgram Ad κ2 program init).events) ∧
    (∀ c : CtlSt, c.running = false → ctlStop c = (c, [])) := by
  refine ⟨?_, ?_, ?_⟩
  · rw [runOps_cons_wait A κ ms b rest a hsf]
    rw [hA]
    dsimp only
    have hsv : serviceStop κ { a with st := s1 } = ({ a with st := s1, k := a.k + 1 }, []) := by
      simp [serviceStop, hκ1]
    have hsl : sleepStep κ { a with st := s1, k := a.k + 1 } =
        ({ a with st := s1, stopped := true, timers := [], k := a.k + 1 + 1 },
          [Event.status "Detenido."]) := by
      simp [sleepStep, hκ2, hsf]
    rw [hsv]
    dsimp only
    rw [hsl]
    dsimp only
    rw [runOps_stopped_entry A κ rest _ rfl]
    simp
  · intro Ad κ2 program init a2 ev2 hr hstop
    have hD : ∀ e2 ∈ ev2, StepOrDetenido e2 := by
      have h2 := (runOps_inv Ad.applyOp κ2 program.ops ⟨Ad.reset init, false, 0, []⟩).1
      rw [hr] at h2
      exact h2
    have hout : runProgram Ad κ2 program init =
        ⟨Event.status "Ejecutando..." :: ev2, a2.st, true, a2.timers, false⟩ := by
      simp only [runProgram]
      rw [hr]
      dsimp only
      rw [hstop]
      rfl
    rw [hout]
    intro hmem
    rcases List.mem_cons.mp hmem with hc | hc
    · simp at hc
    · exact absurd hc (walk_events_no_done ev2 hD).1
  · intro c hc
    simp [ctlStop, hc]

/-- Folding over `n` flattened copies is the `n`-th iterate of folding once
    (helper). -/
theorem foldl_flatten_replicate {α β : Type} (f : β → α → β) (l : List α) :
    ∀ (n : Nat) (b : β),
      List.foldl f b ((List.replicate n l).flatten) = (fun x => List.foldl f x l)^[n] b := by
  intro n
  induction n with
  | zero =>
    intro b
    simp
  | succ n ih =>
    intro b
    rw [List.replicate_succ, List.flatten_cons, List.foldl_append, ih,
      Function.iterate_succ_apply]

/-- Mapping over `n` flattened copies is flattening `n` mapped copies
    (helper). -/
theorem map_flatten_replicate {α β : Type} (g : α → β) (S : List α) (n : Nat) :
    ((List.replicate n S).flatten).map g = (List.replicate n (S.map g)).flatten := by
  induction n with
  | zero => simp
  | succ n ih => simp [List.replicate_succ, ih]

/-- The spec's depth-first step sequence at a non-repeat op (helper). -/
theorem specStepSeq_cons_simple (op : Op) (rest : List Op)
    (hnr : ∀ t bo bi, op ≠ Op.rep t bo bi) :
    specStepSeq (op :: rest) = op.blockId :: specStepSeq rest := by
  cases op with
  | rep t bo bi => exact absurd rfl (hnr t bo bi)
  | start b => simp [specStepSeq, Op.blockId]
  | move s b => simp [specStepSeq, Op.blockId]
  | turn d b => simp [specStepSeq, Op.blockId]
  | wait m b => simp [specStepSeq, Op.blockId]

/-- The spec's depth-first step sequence at a repeat op (helper). -/
theorem specStepSeq_cons_rep (times : Rat) (body : List Op) (bid : String) (rest : List Op) :
    specStepSeq (Op.rep times body bid :: rest) =
      bid :: ((List.replicate (max 0 times.floor).toNat (specStepSeq body)).flatten ++
        specStepSeq rest) := by
  simp [specStepSeq, Op.blockId]

/-- The spec's depth-first applied sequence at a non-repeat op (helper). -/
theorem specAppliedSeq_cons_simple (op : Op) (rest : List Op)
    (hnr : ∀ t bo bi, op ≠ Op.rep t bo bi) :
    specAppliedSeq (op :: rest) = op :: specAppliedSeq rest := by
  cases op with
  | rep t bo bi => exact absurd rfl (hnr t bo bi)
  | start b => simp [specAppliedSeq]
  | move s b => simp [specAppliedSeq]
  | turn d b => simp [specAppliedSeq]
  | wait m b => simp [specAppliedSeq]

/-- The spec's depth-first applied sequence at a repeat op (helper). -/
theorem specAppliedSeq_cons_rep (times : Rat) (body : List Op) (bid : String)
    (rest : List Op) :
    specAppliedSeq (Op.rep times body bid :: rest) =
      (List.replicate (max 0 times.floor).toNat (specAppliedSeq body)).flatten ++
        specAppliedSeq rest := by
  simp [specAppliedSeq]

/-- The repeat loop over an error-free, never-stopped body walk produces the
    `n`-fold concatenated trace and the `n`-th iterate of the body transition
    (helper). -/
theorem iterStop_pure {σ : Type} (g : RunSt σ → RunRes σ × List Event)
    (S : List String) (T : σ → σ)
    (hg : ∀ b : RunSt σ, b.stopped = false →
      ∃ b2 : RunSt σ, g b = (.ok b2, S.map Event.step) ∧ b2.st = T b.st ∧
        b2.stopped = false) :
    ∀ (n : Nat) (a : RunSt σ), a.stopped = false →
      ∃ a2 : RunSt σ,
        iterStop g n a = (.ok a2, (List.replicate n (S.map Event.step)).flatten) ∧
        a2.st = T^[n] a.st ∧ a2.stopped = false := by
  intro n
  induction n with
  | zero =>
    intro a h
    exact ⟨a, by simp [iterStop], rfl, h⟩
  | succ n ih =>
    intro a h
    obtain ⟨b2, hgb, hst, hstop⟩ := hg a h
    obtain ⟨a2, hiter, hst2, hstop2⟩ := ih b2 hstop
    refine ⟨a2, ?_, ?_, hstop2⟩
    · have hred : iterStop g (n + 1) a =
          ((iterStop g n b2).1, (S.map Event.step) ++ (iterStop g n b2).2) := by
        simp [iterStop, h, hgb]
      rw [hred, hiter]
      dsimp only
      rw [List.replicate_succ, List.flatten_cons]
    · rw [hst2, hst, Function.iterate_succ_apply]

/-- The full walk of an error-free adapter under the never-stopping oracle:
    the hook trace is exactly the spec's depth-first step sequence and the
    final state is the fold of the transition function over the spec's
    depth-first applied sequence (helper). -/
theorem runOps_pure_trace {σ : Type} (f : Op → σ → σ) :
    ∀ (ops : List Op) (a : RunSt σ), a.stopped = false →
      ∃ a2 : RunSt σ,
        runOps (pureApply f) noStop ops a = (.ok a2, (specStepSeq ops).map Event.step) ∧
        a2.st = List.foldl (fun s op => f op s) a.st (specAppliedSeq ops) ∧
        a2.stopped = false := by
  refine opList_strongRec ?_
  intro ops SIH
  cases ops with
  | nil =>
    intro a h
    refine ⟨a, ?_, ?_, h⟩
    · rw [runOps_nil]
      simp [specStepSeq]
    · simp [specAppliedSeq]
  | cons op rest =>
    intro a h
    have IHrest := SIH rest (sizeOf_rest_lt op rest)
    by_cases hrep : ∃ t bo bi, op = Op.rep t bo bi
    · obtain ⟨times, body, bid, rfl⟩ := hrep
      have IHbody := SIH body (sizeOf_body_lt times body bid rest)
      obtain ⟨aI, hI, hIst, hIstop⟩ :=
        iterStop_pure (fun b => runOps (pureApply f) noStop body b) (specStepSeq body)
          (fun s => List.foldl (fun s op => f op s) s (specAppliedSeq body))
          (fun b hb => IHbody b hb) ((max 0 times.floor).toNat) a h
      obtain ⟨a2, h2, h2st, h2stop⟩ := IHrest aI hIstop
      refine ⟨a2, ?_, ?_, h2stop⟩
      · rw [runOps_cons_rep (pureApply f) noStop times body bid rest a h, hI]
        dsimp only
        rw [h2]
        dsimp only
        rw [specStepSeq_cons_rep, List.map_cons, List.map_append, map_flatten_replicate]
      · rw [h2st, hIst, specAppliedSeq_cons_rep, List.foldl_append, foldl_flatten_replicate]
    · by_cases hwait : ∃ m bi, op = Op.wait m bi
      · obtain ⟨ms, b, rfl⟩ := hwait
        rw [runOps_cons_wait (pureApply f) noStop ms b rest a h]
        dsimp only [pureApply]
        have hsv : serviceStop noStop { a with st := f (Op.wait ms b) a.st } =
            ({ a with st := f (Op.wait ms b) a.st, k := a.k + 1 }, []) := by
          simp [serviceStop, noStop]
        rw [hsv]
        dsimp only
        cases hsl : sleepStep noStop { a with st := f (Op.wait ms b) a.st, k := a.k + 1 } with
        | mk aW evW =>
          have hslp := sleepStep_spec noStop { a with st := f (Op.wait ms b) a.st, k := a.k + 1 }
          rw [hsl] at hslp
          dsimp only at hslp
          obtain ⟨hWst, hWstop, hWev⟩ := hslp.2.2.2 rfl
          have hWstop2 : aW.stopped = false := by
            rw [hWstop]
            exact h
          obtain ⟨a2, h2, h2st, h2stop⟩ := IHrest aW hWstop2
          refine ⟨a2, ?_, ?_, h2stop⟩
          · dsimp only
            rw [h2, hWev]
            rw [specStepSeq_cons_simple _ _ (by intro t bo bi hx; cases hx), List.map_cons]
            simp [Op.blockId]
          · rw [h2st, hWst]
            rw [specAppliedSeq_cons_simple _ _ (by intro t bo bi hx; cases hx)]
            rfl
      · have hnr : ∀ t bo bi, op ≠ Op.rep t bo bi := fun t bo bi hx => hrep ⟨t, bo, bi, hx⟩
        have hnw : ∀ m bi, op ≠ Op.wait m bi := fun m bi hx => hwait ⟨m, bi, hx⟩
        rw [runOps_cons_simple (pureApply f) noStop op rest a h hnr hnw]
        dsimp only [pureApply]
        have hsv : serviceStop noStop { a with st := f op a.st } =
            ({ a with st := f op a.st, k := a.k + 1 }, []) := by
          simp [serviceStop, noStop]
        rw [hsv]
        dsimp only
        have ha1 : ({ a with st := f op a.st, k := a.k + 1 } : RunSt σ).stopped = false := h
        obtain ⟨a2, h2, h2st, h2stop⟩ := IHrest _ ha1
        refine ⟨a2, ?_, ?_, h2stop⟩
        · rw [h2]
          dsimp only
          rw [specStepSeq_cons_simple _ _ hnr, List.map_cons]
          simp
        · rw [h2st]
          rw [specAppliedSeq_cons_simple _ _ hnr]
          rfl

/-- C7: for an adapter that never throws, ops are applied in the exact
    depth-first sequence of the AST including every unrolled repeat
    iteration — the final state is the fold of the transition over that
    sequence — and `onStep(op.blockId)` is emitted exactly once per op
    execution occurrence, before the op is applied, in that same depth-first
    order. -/
theorem runtime_df_order {σ : Type} (f : Op → σ → σ) (ops : List Op) (a : RunSt σ)
    (h : a.stopped = false) :
    (runOps (pureApply f) noStop ops a).2 = (specStepSeq ops).map Event.step ∧
    ∃ a2 : RunSt σ, (runOps (pureApply f) noStop ops a).1 = .ok a2 ∧
      a2.st = List.foldl (fun s op => f op s) a.st (specAppliedSeq ops) := by
  obtain ⟨a2, heq, hst, _⟩ := runOps_pure_trace f ops a h
  rw [heq]
  exact ⟨rfl, a2, rfl, hst⟩

/-- C7 witness: the depth-first order on a concrete program with a repeat,
    observed through a trace-accumulating adapter. -/
theorem runtime_df_order_witness :
    (runOps (pureApply fun op (l : List Op) => l ++ [op]) noStop
        [Op.start "s", Op.rep 2 [Op.move 1 "m"] "r", Op.wait 7 "w"]
        ⟨[], false, 0, []⟩).2 =
      [Event.step "s", Event.step "r", Event.step "m", Event.step "m", Event.step "w"] ∧
    ∃ a2 : RunSt (List Op),
      (runOps (pureApply fun op (l : List Op) => l ++ [op]) noStop
          [Op.start "s", Op.rep 2 [Op.move 1 "m"] "r", Op.wait 7 "w"]
          ⟨[], false, 0, []⟩).1 = .ok a2 ∧
      a2.st = [Op.start "s", Op.move 1 "m", Op.move 1 "m", Op.wait 7 "w"] := by
  have hfl : (max 0 (2 : Rat).floor).toNat = 2 := by decide
  have h := runtime_df_order (fun op (l : List Op) => l ++ [op])
    [Op.start "s", Op.rep 2 [Op.move 1 "m"] "r", Op.wait 7 "w"] ⟨[], false, 0, []⟩ rfl
  have hS : specStepSeq [Op.start "s", Op.rep 2 [Op.move 1 "m"] "r", Op.wait 7 "w"] =
      ["s", "r", "m", "m", "w"] := by
    simp [specStepSeq, hfl, Op.blockId]
  have hA : specAppliedSeq [Op.start "s", Op.rep 2 [Op.move 1 "m"] "r", Op.wait 7 "w"] =
      [Op.start "s", Op.move 1 "m", Op.move 1 "m", Op.wait 7 "w"] := by
    simp [specAppliedSeq, hfl]
  rw [hS, hA] at h
  simpa using h

/-- C6 witness: a stop serviced during a wait's delay on a concrete run. -/
theorem stop_cancels_wait_witness :
    runOps (mazeApplyOp []) (fun k => k == 1) [Op.wait 5 "w", Op.move 1 "m"]
        ⟨⟨1, ⟨0, 0, .N⟩, .idle, none⟩, false, 0, []⟩ =
      (.ok ⟨⟨1, ⟨0, 0, .N⟩, .idle, none⟩, true, 2, []⟩,
        [Event.step "w", Event.status "Detenido."]) ∧
    ctlStop ⟨false, false, [5]⟩ = (⟨false, false, [5]⟩, []) := by
  have h := stop_cancels_wait (mazeApplyOp []) (fun k => k == 1) 5 "w" [Op.move 1 "m"]
    ⟨⟨1, ⟨0, 0, .N⟩, .idle, none⟩, false, 0, []⟩ ⟨1, ⟨0, 0, .N⟩, .idle, none⟩
    rfl (by decide) (by decide) (by decide)
  exact ⟨h.1, h.2.2 _ rfl⟩

/-- Concrete evaluation of the walk of the scenario program on the spec's
    literal level: the first move leaves the grid and throws `CHOQUE`
    (helper). -/
theorem demo_run_choque :
    runOps (mazeAdapter [demoLevel]).applyOp noStop demoProgram.ops
      ⟨(mazeAdapter [demoLevel]).reset (makeInitialState [demoLevel] 1), false, 0, []⟩ =
      (.err "CHOQUE" ⟨⟨1, ⟨0, 0, .N⟩, .error, some "¡Choque!"⟩, false, 1, []⟩,
        [Event.step "b1", Event.step "b2"]) := by
  show runOps (mazeApplyOp [demoLevel]) noStop
    [Op.start "b1", Op.move 1 "b2", Op.turn .right "b3", Op.move 1 "b4"]
    ⟨⟨1, ⟨0, 0, .N⟩, .idle, none⟩, false, 0, []⟩ = _
  rw [runOps_cons_simple (mazeApplyOp [demoLevel]) noStop (Op.start "b1")
    [Op.move 1 "b2", Op.turn .right "b3", Op.move 1 "b4"]
    ⟨⟨1, ⟨0, 0, .N⟩, .idle, none⟩, false, 0, []⟩ rfl
    (fun _ _ _ h2 => Op.noConfusion h2) (fun _ _ h2 => Op.noConfusion h2)]
  show ((runOps (mazeApplyOp [demoLevel]) noStop
      [Op.move 1 "b2", Op.turn .right "b3", Op.move 1 "b4"]
      ⟨⟨1, ⟨0, 0, .N⟩, .idle, none⟩, false, 1, []⟩).1,
    Event.step "b1" :: (runOps (mazeApplyOp [demoLevel]) noStop
      [Op.move 1 "b2", Op.turn .right "b3", Op.move 1 "b4"]
      ⟨⟨1, ⟨0, 0, .N⟩, .idle, none⟩, false, 1, []⟩).2) =
    (.err "CHOQUE" ⟨⟨1, ⟨0, 0, .N⟩, .error, some "¡Choque!"⟩, false, 1, []⟩,
      [Event.step "b1", Event.step "b2"])
  rw [runOps_cons_simple (mazeApplyOp [demoLevel]) noStop (Op.move 1 "b2")
    [Op.turn .right "b3", Op.move 1 "b4"]
    ⟨⟨1, ⟨0, 0, .N⟩, .idle, none⟩, false, 1, []⟩ rfl
    (fun _ _ _ h2 => Op.noConfusion h2) (fun _ _ h2 => Op.noConfusion h2)]
  rfl

/-- The terminal outcome of the scenario run on the spec's literal level
    (helper). -/
theorem demo_outcome_choque :
    runProgram (mazeAdapter [demoLevel]) noStop demoProgram (makeInitialState [demoLevel] 1) =
      ⟨[Event.status "Ejecutando...", Event.step "b1", Event.step "b2", Event.error "CHOQUE"],
        ⟨1, ⟨0, 0, .N⟩, .error, some "¡Choque!"⟩, false, [], false⟩ := by
  simp only [runProgram]
  rw [demo_run_choque]
  rfl

/-- C1 (counterexample): on the claim's own scenario — the 3×3 empty grid,
    agent at (0,0) facing `N`, goal at (1,1) — the program
    `[Start, Move 1, Turn right, Move 1]` does NOT end in a win: in the
    code's screen coordinates `N` is `y - 1`, so the first move leaves the
    grid, the adapter throws the `CHOQUE` sentinel and the final status is
    `error`. -/
theorem maze_scenario_cex :
    runProgram (mazeAdapter [demoLevel]) noStop demoProgram (makeInitialState [demoLevel] 1) =
      ⟨[Event.status "Ejecutando...", Event.step "b1", Event.step "b2", Event.error "CHOQUE"],
        ⟨1, ⟨0, 0, .N⟩, .error, some "¡Choque!"⟩, false, [], false⟩ ∧
    (runProgram (mazeAdapter [demoLevel]) noStop demoProgram
        (makeInitialState [demoLevel] 1)).final.status ≠ MazeStatus.win ∧
    Event.error "WIN" ∉
      (runProgram (mazeAdapter [demoLevel]) noStop demoProgram
        (makeInitialState [demoLevel] 1)).events := by
  refine ⟨demo_outcome_choque, ?_, ?_⟩ <;> rw [demo_outcome_choque] <;> decide

/-- Concrete evaluation of the walk of the scenario program from the amended
    start cell (0,2): the path reaches the goal and throws `WIN` (helper). -/
theorem demo_run_win :
    runOps (mazeAdapter [amendedLevel]).applyOp noStop demoProgram.ops
      ⟨(mazeAdapter [amendedLevel]).reset (makeInitialState [amendedLevel] 1), false, 0, []⟩ =
      (.err "WIN" ⟨⟨1, ⟨1, 1, .E⟩, .win, some "¡Llegaste!"⟩, false, 3, []⟩,
        [Event.step "b1", Event.step "b2", Event.step "b3", Event.step "b4"]) := by
  show runOps (mazeApplyOp [amendedLevel]) noStop
    [Op.start "b1", Op.move 1 "b2", Op.turn .right "b3", Op.move 1 "b4"]
    ⟨⟨1, ⟨0, 2, .N⟩, .idle, none⟩, false, 0, []⟩ = _
  rw [runOps_cons_simple (mazeApplyOp [amendedLevel]) noStop (Op.start "b1")
    [Op.move 1 "b2", Op.turn .right "b3", Op.move 1 "b4"]
    ⟨⟨1, ⟨0, 2, .N⟩, .idle, none⟩, false, 0, []⟩ rfl
    (fun _ _ _ h2 => Op.noConfusion h2) (fun _ _ h2 => Op.noConfusion h2)]
  show ((runOps (mazeApplyOp [amendedLevel]) noStop
      [Op.move 1 "b2", Op.turn .right "b3", Op.move 1 "b4"]
      ⟨⟨1, ⟨0, 2, .N⟩, .idle, none⟩, false, 1, []⟩).1,
    Event.step "b1" :: (runOps (mazeApplyOp [amendedLevel]) noStop
      [Op.move 1 "b2", Op.turn .right "b3", Op.move 1 "b4"]
      ⟨⟨1, ⟨0, 2, .N⟩, .idle, none⟩, false, 1, []⟩).2) = _
  rw [runOps_cons_simple (mazeApplyOp [amendedLevel]) noStop (Op.move 1 "b2")
    [Op.turn .right "b3", Op.move 1 "b4"]
    ⟨⟨1, ⟨0, 2, .N⟩, .idle, none⟩, false, 1, []⟩ rfl
    (fun _ _ _ h2 => Op.noConfusion h2) (fun _ _ h2 => Op.noConfusion h2)]
  show ((runOps (mazeApplyOp [amendedLevel]) noStop [Op.turn .right "b3", Op.move 1 "b4"]
      ⟨⟨1, ⟨0, 1, .N⟩, .idle, none⟩, false, 2, []⟩).1,
    Event.step "b1" :: Event.step "b2" ::
      (runOps (mazeApplyOp [amendedLevel]) noStop [Op.turn .right "b3", Op.move 1 "b4"]
        ⟨⟨1, ⟨0, 1, .N⟩, .idle, none⟩, false, 2, []⟩).2) = _
  rw [runOps_cons_simple (mazeApplyOp [amendedLevel]) noStop (Op.turn .right "b3")
    [Op.move 1 "b4"] ⟨⟨1, ⟨0, 1, .N⟩, .idle, none⟩, false, 2, []⟩ rfl
    (fun _ _ _ h2 => Op.noConfusion h2) (fun _ _ h2 => Op.noConfusion h2)]
  show ((runOps (mazeApplyOp [amendedLevel]) noStop [Op.move 1 "b4"]
      ⟨⟨1, ⟨0, 1, .E⟩, .idle, none⟩, false, 3, []⟩).1,
    Event.step "b1" :: Event.step "b2" :: Event.step "b3" ::
      (runOps (mazeApplyOp [amendedLevel]) noStop [Op.move 1 "b4"]
        ⟨⟨1, ⟨0, 1, .E⟩, .idle, none⟩, false, 3, []⟩).2) = _
  rw [runOps_cons_simple (mazeApplyOp [amendedLevel]) noStop (Op.move 1 "b4") []
    ⟨⟨1, ⟨0, 1, .E⟩, .idle, none⟩, false, 3, []⟩ rfl
    (fun _ _ _ h2 => Op.noConfusion h2) (fun _ _ h2 => Op.noConfusion h2)]
  rfl

/-- C1 (amended): the same scenario with the start cell at (0,2), the cell
    from which the spec's intended path exists in the code's screen
    coordinates: the agent moves to (0,1), then turns to face `E`, then moves
    to (1,1); there `applyOp` signals WIN, the WIN sentinel reaches `onError`
    and the resulting state's status is `win` (`onDone` is never emitted). -/
theorem maze_scenario_amended :
    applyOps [amendedLevel] [Op.start "b1", Op.move 1 "b2"]
      (makeInitialState [amendedLevel] 1) = .ok ⟨1, ⟨0, 1, .N⟩, .idle, none⟩ ∧
    applyOps [amendedLevel] [Op.start "b1", Op.move 1 "b2", Op.turn .right "b3"]
      (makeInitialState [amendedLevel] 1) = .ok ⟨1, ⟨0, 1, .E⟩, .idle, none⟩ ∧
    runProgram (mazeAdapter [amendedLevel]) noStop demoProgram
      (makeInitialState [amendedLevel] 1) =
      ⟨[Event.status "Ejecutando...", Event.step "b1", Event.step "b2", Event.step "b3",
          Event.step "b4", Event.error "WIN"],
        ⟨1, ⟨1, 1, .E⟩, .win, some "¡Llegaste!"⟩, false, [], false⟩ ∧
    Event.done ∉
      (runProgram (mazeAdapter [amendedLevel]) noStop demoProgram
        (makeInitialState [amendedLevel] 1)).events := by
  have hout : runProgram (mazeAdapter [amendedLevel]) noStop demoProgram
      (makeInitialState [amendedLevel] 1) =
      ⟨[Event.status "Ejecutando...", Event.step "b1", Event.step "b2", Event.step "b3",
          Event.step "b4", Event.error "WIN"],
        ⟨1, ⟨1, 1, .E⟩, .win, some "¡Llegaste!"⟩, false, [], false⟩ := by
    simp only [runProgram]
    rw [demo_run_win]
    rfl
  exact ⟨by decide, by decide, hout, by rw [hout]; decide⟩

/-- C4 witness: the CHOQUE sentinel on the demo level reaches `onError` with
    the mutated state retained. -/
theorem error_terminates_run_witness :
    runProgram (mazeAdapter [demoLevel]) noStop demoProgram (makeInitialState [demoLevel] 1) =
      ⟨[Event.status "Ejecutando...", Event.step "b1", Event.step "b2", Event.error "CHOQUE"],
        ⟨1, ⟨0, 0, .N⟩, .error, some "¡Choque!"⟩, false, [], false⟩ :=
  (error_terminates_run (mazeAdapter [demoLevel]) noStop demoProgram
    (makeInitialState [demoLevel] 1) "CHOQUE" _ _ demo_run_choque).1

/-- C5 witness: a completed maze run gets `onDone` then `"Finalizado."`. -/
theorem completion_contract_witness :
    (runProgram (mazeAdapter [demoLevel]) noStop ⟨[Op.start "b1", Op.turn .right "b2"]⟩
        (makeInitialState [demoLevel] 1)).events =
      Event.status "Ejecutando..." ::
        ([Event.step "b1", Event.step "b2"] ++ [Event.done, Event.status "Finalizado."]) := by
  have h : runOps (mazeAdapter [demoLevel]).applyOp noStop
      (Program.ops ⟨[Op.start "b1", Op.turn .right "b2"]⟩)
      ⟨(mazeAdapter [demoLevel]).reset (makeInitialState [demoLevel] 1), false, 0, []⟩ =
      (.ok ⟨⟨1, ⟨0, 0, .E⟩, .idle, none⟩, false, 2, []⟩,
        [Event.step "b1", Event.step "b2"]) := by
    show runOps (mazeApplyOp [demoLevel]) noStop [Op.start "b1", Op.turn .right "b2"]
      ⟨⟨1, ⟨0, 0, .N⟩, .idle, none⟩, false, 0, []⟩ = _
    rw [runOps_cons_simple (mazeApplyOp [demoLevel]) noStop (Op.start "b1")
      [Op.turn .right "b2"] ⟨⟨1, ⟨0, 0, .N⟩, .idle, none⟩, false, 0, []⟩ rfl
      (fun _ _ _ h2 => Op.noConfusion h2) (fun _ _ h2 => Op.noConfusion h2)]
    show ((runOps (mazeApplyOp [demoLevel]) noStop [Op.turn .right "b2"]
        ⟨⟨1, ⟨0, 0, .N⟩, .idle, none⟩, false, 1, []⟩).1,
      Event.step "b1" :: (runOps (mazeApplyOp [demoLevel]) noStop [Op.turn .right "b2"]
        ⟨⟨1, ⟨0, 0, .N⟩, .idle, none⟩, false, 1, []⟩).2) = _
    rw [runOps_cons_simple (mazeApplyOp [demoLevel]) noStop (Op.turn .right "b2") []
      ⟨⟨1, ⟨0, 0, .N⟩, .idle, none⟩, false, 1, []⟩ rfl
      (fun _ _ _ h2 => Op.noConfusion h2) (fun _ _ h2 => Op.noConfusion h2)]
    show ((runOps (mazeApplyOp [demoLevel]) noStop []
        ⟨⟨1, ⟨0, 0, .E⟩, .idle, none⟩, false, 2, []⟩).1,
      Event.step "b1" :: Event.step "b2" :: (runOps (mazeApplyOp [demoLevel]) noStop []
        ⟨⟨1, ⟨0, 0, .E⟩, .idle, none⟩, false, 2, []⟩).2) = _
    rw [runOps_nil]
  exact (completion_contract (mazeAdapter [demoLevel]) noStop
    ⟨[Op.start "b1", Op.turn .right "b2"]⟩ (makeInitialState [demoLevel] 1)).2.2.1 _ _ h rfl
